import Mathlib

/-!
Verification of the FDSTools `bgestimate` background-noise profile estimator.

This file gives a shallow embedding, over the rational numbers, of the
profile-mixture solver `solve_profile_mixture_single` and of the evidence
aggregation pipeline (`add_sample_data`, `preprocess_data`) from
`fdstools/tools/bgestimate.py`, and proves/refutes the specification claims
about them.

Modelling conventions:
* Python floats are modelled exactly by `ℚ` (so `sys.float_info.max` becomes
  the exact rational value of the largest finite double).
* numpy matrices are modelled as total functions `ℕ → ℕ → ℚ`; sums over
  matrix slices are finite sums over `List.range`.
* Python dictionaries are modelled as insertion-ordered association lists,
  matching how the code's results depend only on key membership, insertion
  order and per-key values.
* The external NNLS routine (`fdstools.lib.nnls`, not part of the sources
  under verification) is an abstract function parameter; all invariant
  theorems hold for every possible NNLS result, and all concrete evaluations
  use inputs on which the code never calls it (homozygote shortcut).
* Rational division by zero is total (returns 0) in Lean; the only place the
  Python code can hit a zero denominator on the modelled paths is guarded
  either by `try/except ZeroDivisionError` (evidence accumulation) or by an
  explicit `if not E[p, p]` test (coordinate descent), both of which are
  modelled explicitly.
-/

attribute [local semireducible] Rat.add Rat.mul Rat.inv Rat.sub

set_option maxRecDepth 8000

/-- Matrices of the solver, modelled as total functions on indices. -/
abbrev Mat : Type := ℕ → ℕ → ℚ

/-- Finite sum of `f i` over `i < n`, modelling numpy slice sums. -/
def sumR (n : ℕ) (f : ℕ → ℚ) : ℚ := ((List.range n).map f).sum

/-- The exact value of `sys.float_info.max` (the largest finite double,
`(2 ^ 53 - 1) * 2 ^ 971`, written out so that kernel evaluation treats it as
one literal), used by the code as the initial previous score. -/
def floatMax : ℚ := 179769313486231570814527423731704356798070567525844996598917476803157260780028538760589558632766878171540458953514382464234321326889464182768467546703537516986049910576551282076245490090389328944075868508455133942304583236903222948165808559332123348274797826204144723168738177180919299881250404026184124858368

/-- The relative convergence tolerance `0.0001` of the solver. -/
def tol : ℚ := 1 / 10000

/-- Events written to the diagnostic report sink (`reportfile`). -/
inductive Note : Type where
  /-- The note `"Sample %i does not have allele %i"`: a declared true allele with
  zero reads was skipped while accumulating the evidence matrix. -/
  | missingAllele (i j : ℕ)
  /-- The note `"%4i - No samples appear to have allele %i"`: `(AᵀA)[p,p] = 0` was hit
  in outer iteration `v` for true-allele row `p`. -/
  | noSamples (v p : ℕ)
  /-- The per-outer-iteration progress line (iteration index, residual). -/
  | progress (v : ℕ)
  /-- The experimental-variance caveat emitted in variance mode. -/
  | varianceCaveat
deriving DecidableEq, Repr

/-- Python `genotypes[i]`, the list of true-allele indices of sample `i`. -/
def gtOf (G : List (List ℕ)) (i : ℕ) : List ℕ := G.getD i []

/-- Python `samples[i][k]`, the observed read count of sample `i` at variant `k`. -/
def sampleEntry (S : List (List ℚ)) (i k : ℕ) : ℚ := (S.getD i []).getD k 0

/-- One iteration `C[j, :] += [x * scale_factor for x in samples[i]]` of the
evidence-accumulation loop, at fixed genotype length `glen`; a zero read
count at the true allele is skipped (`except ZeroDivisionError: continue`). -/
def addEntryC (s : List ℚ) (glen : ℕ) (C : Mat) (j : ℕ) : Mat :=
  if s.getD j 0 = 0 then C
  else fun r k =>
    if r = j then C r k + 100 / s.getD j 0 / (glen : ℚ) * s.getD k 0 else C r k

/-- The contributions of one sample (inner loop `for j in genotypes[i]`),
with the genotype list over which the loop runs possibly restricted but the
scale factor still using the full genotype length `glen`. -/
def addSampleCAux (s : List ℚ) (glen : ℕ) (C : Mat) (g : List ℕ) : Mat :=
  g.foldl (addEntryC s glen) C

/-- The contributions of one sample to the evidence matrix `C`. -/
def addSampleC (C : Mat) (s : List ℚ) (g : List ℕ) : Mat :=
  addSampleCAux s g.length C g

/-- The evidence matrix `C` accumulated over all samples
(`bgestimate.py` lines 91-105). -/
def buildC (S : List (List ℚ)) (G : List (List ℕ)) : Mat :=
  (List.range S.length).foldl (fun C i => addSampleC C (S.getD i []) (gtOf G i))
    (fun _ _ => 0)

/-- The notes written while accumulating `C`: one `missingAllele` note per
(sample, true allele) pair whose read count is zero, when a report sink is
present. -/
def cNotes (report : Bool) (S : List (List ℚ)) (G : List (List ℕ)) : List Note :=
  if report then
    (List.range S.length).flatMap fun i =>
      ((gtOf G i).filter fun j => decide (sampleEntry S i j = 0)).map
        (Note.missingAllele i)
  else []

/-- Transpose of a rectangular list-of-rows matrix (for `Px.T`). -/
def transposeM (M : List (List ℚ)) : List (List ℚ) :=
  (List.range (M.headD []).length).map fun c => M.map fun row => row.getD c 0

/-- One sample's update of the balance matrix `A`
(`bgestimate.py` lines 114-129): the homozygote shortcut adds a unit at
`(allele, allele)`; otherwise the per-sample NNLS balance estimate `Ax` is
accumulated over the genotype index pairs. -/
def fillAStep (nnlsFn : List (List ℚ) → List ℚ → List ℚ) (S : List (List ℚ))
    (G : List (List ℕ)) (P : Mat) (A : Mat) (i : ℕ) : Mat :=
  let g := gtOf G i
  if g.length = 1 then
    -- Shortcut for homozygotes.
    fun r c => if r = g.headD 0 ∧ c = g.headD 0 then A r c + 1 else A r c
  else
    let Cx : List ℚ := g.map fun x => sampleEntry S i x
    let Px : List (List ℚ) := g.map fun r => g.map fun c => P r c
    let w : List ℚ := nnlsFn (transposeM Px) Cx
    -- Ax = (100./Cx/len(genotypes[i])).T * nnls(Px.T, Cx.T).T
    let Ax : ℕ → ℕ → ℚ := fun j k =>
      100 / Cx.getD j 0 / (g.length : ℚ) * w.getD k 0
    fun r c => A r c +
      sumR g.length fun j => sumR g.length fun k =>
        if g.getD j 0 = r ∧ g.getD k 0 = c then Ax j k else 0

/-- The balance matrix `A` filled in from the current profiles at the start
of each outer iteration (`bgestimate.py` lines 112-129).  `nnlsFn` is the
abstract external non-negative least-squares routine. -/
def fillA (nnlsFn : List (List ℚ) → List ℚ → List ℚ) (S : List (List ℚ))
    (G : List (List ℕ)) (P : Mat) : Mat :=
  (List.range S.length).foldl (fillAStep nnlsFn S G P) (fun _ _ => 0)

/-- The residual `np.square(C - A * P).sum()` for an `rows × cols` system with inner
dimension `inner`. -/
def resid (rows inner cols : ℕ) (A C P : Mat) : ℚ :=
  sumR rows fun i => sumR cols fun k =>
    (C i k - sumR inner fun j => A i j * P j k) ^ 2

/-- One Gauss-Seidel row update of the profile matrix `P`
(`bgestimate.py` lines 137-150), together with the note logged when the
degenerate `E[p, p] = 0` branch is taken. -/
def updateRowP (E F : Mat) (n : ℕ) (report : Bool) (v : ℕ)
    (PL : Mat × List Note) (p : ℕ) : Mat × List Note :=
  let P := PL.1
  if E p p = 0 then
    -- P[p, nn] = 0 : only the other true-allele columns of row p are zeroed.
    ((fun r k => if r = p ∧ k < n ∧ k ≠ p then 0 else P r k),
      PL.2 ++ if report then [Note.noSamples v p] else [])
  else
    let tmp : ℕ → ℚ := fun k =>
      (F p k - sumR n fun q => if q = p then 0 else E p q * P q k) / E p p
    -- tmp[tmp < 0] = 0 ; tmp[0, p] = 100
    let tmp2 : ℕ → ℚ := fun k =>
      if k = p then 100 else if tmp k < 0 then 0 else tmp k
    ((fun r k => if r = p then tmp2 k else P r k), PL.2)

/-- One full sweep `for p in range(n)` of profile coordinate descent. -/
def sweepP (E F : Mat) (n : ℕ) (report : Bool) (v : ℕ) (P : Mat) :
    Mat × List Note :=
  (List.range n).foldl (updateRowP E F n report v) (P, [])

/-- The inner loop `for w in range(200)` of profile refinement; returns the
refined matrix, the number of sweeps executed, and the accumulated log. -/
def innerGoP (A C E F : Mat) (n m : ℕ) (report : Bool) (v : ℕ) :
    ℕ → ℚ → Mat → Mat × ℕ × List Note
  | 0, _, P => (P, 0, [])
  | fuel + 1, prev, P =>
    let SL := sweepP E F n report v P
    let P1 := SL.1
    let cur := resid n n m A C P1
    if cur = 0 ∨ (prev - cur) / prev < tol then (P1, 1, SL.2)
    else
      let R := innerGoP A C E F n m report v fuel cur P1
      (R.1, R.2.1 + 1, SL.2 ++ R.2.2)

/-- Result of the single-direction profile solve: the profile matrix, the
number of outer iterations executed, the number of inner sweeps executed in
each outer iteration, and the diagnostic log. -/
structure SolveOut : Type where
  P : Mat
  outerIters : ℕ
  innerIters : List ℕ
  log : List Note

/-- The outer loop `for v in range(200)` of `solve_profile_mixture_single`
(`bgestimate.py` lines 108-167). -/
def outerGoP (nnlsFn : List (List ℚ) → List ℚ → List ℚ) (S : List (List ℚ))
    (G : List (List ℕ)) (n m : ℕ) (report : Bool) (C : Mat) :
    ℕ → ℚ → ℕ → Mat → SolveOut
  | 0, _, _, P => ⟨P, 0, [], []⟩
  | fuel + 1, prev, v, P =>
    let A := fillA nnlsFn S G P
    let E : Mat := fun p q => sumR n fun r => A r p * A r q
    let F : Mat := fun p k => sumR n fun r => A r p * C r k
    let R := innerGoP A C E F n m report v 200 floatMax P
    let P1 := R.1
    let cur := resid n n m A C P1
    let lg := R.2.2 ++ if report then [Note.progress v] else []
    if cur = 0 ∨ (prev - cur) / prev < tol then ⟨P1, 1, [R.2.1], lg⟩
    else
      let Rec := outerGoP nnlsFn S G n m report C fuel cur (v + 1) P1
      ⟨Rec.P, Rec.outerIters + 1, R.2.1 :: Rec.innerIters, lg ++ Rec.log⟩

/-- The initial profile matrix: zeros with `np.fill_diagonal(P, 100.)`
(which on an `n × m` matrix fills `min n m` diagonal entries). -/
def initP (n m : ℕ) : Mat := fun i k => if i = k ∧ i < n ∧ i < m then 100 else 0

/-- Model of `solve_profile_mixture_single(samples, genotypes, n)` without variance
estimation, instrumented with iteration counts and the diagnostic log. -/
def solve_profile_mixture_single (report : Bool)
    (nnlsFn : List (List ℚ) → List ℚ → List ℚ) (S : List (List ℚ))
    (G : List (List ℕ)) (n : ℕ) : SolveOut :=
  let m := (S.headD []).length
  let C := buildC S G
  let O := outerGoP nnlsFn S G n m report C 200 floatMax 0 (initP n m)
  ⟨O.P, O.outerIters, O.innerIters, cNotes report S G ++ O.log⟩

/-- A stand-in NNLS routine used for concrete runs whose genotypes are all
homozygous, on which the code never reaches the NNLS call. -/
def nnls0 : List (List ℚ) → List ℚ → List ℚ := fun _ b => b.map fun _ => 0

/-! ### Variance estimation (`bgestimate.py` lines 169-244) -/

/-- The per-allele balance coefficients `Ax` of sample `i` used by variance
estimation: the homozygote shortcut `Ax = [[1.]]`, otherwise
`scale_factors * nnls(Px[:, genotypes].T, Cx[:, genotypes].T).T`. -/
def varAx (nnlsFn : List (List ℚ) → List ℚ → List ℚ) (S : List (List ℚ))
    (G : List (List ℕ)) (P : Mat) (i : ℕ) : ℕ → ℕ → ℚ :=
  let g := gtOf G i
  if g.length = 1 then fun j k => if j = 0 ∧ k = 0 then 1 else 0
  else
    let Cx : List ℚ := g.map fun x => sampleEntry S i x
    let Px : List (List ℚ) := g.map fun r => g.map fun c => P r c
    let w : List ℚ := nnlsFn (transposeM Px) Cx
    fun j k => 100 / sampleEntry S i (g.getD j 0) / (g.length : ℚ) * w.getD k 0

/-- The rows appended to the variance design matrix `A` and evidence `C`:
one row per (sample, true allele) pair.  The first component is the design
row (`A[-1][genotypes[i][k]] = Ax[j, k] ** 2`, later assignments winning),
the second the squared deviations `np.square(scale_factors * Cx - Ax * Px)`
of that allele's rescaled observations from the fitted profile. -/
def varRows (nnlsFn : List (List ℚ) → List ℚ → List ℚ) (S : List (List ℚ))
    (G : List (List ℕ)) (P : Mat) : List ((ℕ → ℚ) × (ℕ → ℚ)) :=
  (List.range S.length).flatMap fun i =>
    let g := gtOf G i
    let glen := g.length
    let sf : ℕ → ℚ := fun j => 100 / sampleEntry S i (g.getD j 0) / (glen : ℚ)
    let Ax := varAx nnlsFn S G P i
    (List.range glen).map fun j =>
      ((fun c => (List.range glen).foldl
          (fun acc k => if g.getD k 0 = c then Ax j k ^ 2 else acc) 0),
       (fun kc => (sf j * sampleEntry S i kc -
          sumR glen fun k => Ax j k * P (g.getD k 0) kc) ^ 2))

/-- One Gauss-Seidel row update of the variance matrix `V`
(`bgestimate.py` lines 229-238): negative entries clamped, `tmp[0, p] = 0`
(no variance for the actual allele), `tmp[P[p, :] == 0] = 0` (no variance
for zero means); the degenerate branch zeroes the whole row. -/
def updateRowV (E F : Mat) (n : ℕ) (P : Mat) (V : Mat) (p : ℕ) : Mat :=
  if E p p = 0 then fun r k => if r = p then 0 else V r k
  else
    let tmp : ℕ → ℚ := fun k =>
      (F p k - sumR n fun q => if q = p then 0 else E p q * V q k) / E p p
    let tmp3 : ℕ → ℚ := fun k =>
      if k = p ∨ P p k = 0 then 0 else if tmp k < 0 then 0 else tmp k
    fun r k => if r = p then tmp3 k else V r k

/-- One full sweep `for p in range(n)` of variance coordinate descent. -/
def sweepV (E F : Mat) (n : ℕ) (P : Mat) (V : Mat) : Mat :=
  (List.range n).foldl (updateRowV E F n P) V

/-- Residual of the variance system over its list-shaped rows. -/
def residV (Arows Crows : List (ℕ → ℚ)) (n m : ℕ) (V : Mat) : ℚ :=
  sumR Arows.length fun r => sumR m fun k =>
    ((Crows.getD r fun _ => 0) k -
      sumR n fun j => (Arows.getD r fun _ => 0) j * V j k) ^ 2

/-- The inner loop `for w in range(200)` of variance refinement. -/
def innerGoV (Arows Crows : List (ℕ → ℚ)) (E F : Mat) (n m : ℕ) (P : Mat) :
    ℕ → ℚ → Mat → Mat
  | 0, _, V => V
  | fuel + 1, prev, V =>
    let V1 := sweepV E F n P V
    let cur := residV Arows Crows n m V1
    if cur = 0 ∨ (prev - cur) / prev < tol then V1
    else innerGoV Arows Crows E F n m P fuel cur V1

/-- Result of `solve_profile_mixture_single(..., variance=True)`. -/
structure VarOut : Type where
  P : Mat
  V : Mat
  log : List Note

/-- Model of `solve_profile_mixture_single(samples, genotypes, n, variance=True)`:
the converged profile matrix together with the experimental variance
matrix solved from the squared deviations. -/
def solve_profile_mixture_single_variance (report : Bool)
    (nnlsFn : List (List ℚ) → List ℚ → List ℚ) (S : List (List ℚ))
    (G : List (List ℕ)) (n : ℕ) : VarOut :=
  let m := (S.headD []).length
  let O := solve_profile_mixture_single report nnlsFn S G n
  let P := O.P
  let rows := varRows nnlsFn S G P
  let Arows := rows.map Prod.fst
  let Crows := rows.map Prod.snd
  let E : Mat := fun p q =>
    sumR Arows.length fun r => (Arows.getD r fun _ => 0) p * (Arows.getD r fun _ => 0) q
  let F : Mat := fun p k =>
    sumR Arows.length fun r => (Arows.getD r fun _ => 0) p * (Crows.getD r fun _ => 0) k
  let V := innerGoV Arows Crows E F n m P 200 floatMax (fun _ _ => 0)
  ⟨P, V, O.log ++ if report then [Note.varianceCaveat] else []⟩

/-! ### Evidence aggregation (`bgestimate.py` lines 339-444)

The per-marker aggregation state `data[marker]` and the two functions
`add_sample_data` (fold one sample in) and `preprocess_data` (significance
filter and reordering), modelled for a single marker.  Variant identifiers
are natural numbers; Python dictionaries keyed by allele index become
insertion-ordered association lists. -/

/-- The per-marker entry of the `data` dictionary. -/
structure MarkerData : Type where
  /-- Python `data[marker]["profiles"]["true alleles"]`. -/
  trueAlleles : ℕ
  /-- Python `data[marker]["profiles"]["alleles"]`: the variant catalogue. -/
  alleles : List ℕ
  /-- Python `data[marker]["profiles"]["profiles_forward"]`. -/
  profilesF : List (List ℤ)
  /-- Python `data[marker]["profiles"]["profiles_reverse"]`. -/
  profilesR : List (List ℤ)
  /-- Python `data[marker]["allele_counts"]`: per true-allele recurrence counters,
  keyed by catalogue index, in insertion order. -/
  alleleCounts : List (ℕ × List ℕ)
  /-- Python `data[marker]["genotypes"]`. -/
  genotypes : List (List ℕ)
deriving DecidableEq, Repr

/-- The input of one sample for one marker: its declared true alleles
(`sample_alleles[marker]`) and its observed (forward, reverse) read counts
(`sample_data`), both in iteration order. -/
structure SampleIn : Type where
  trueSet : List ℕ
  readData : List (ℕ × ℤ × ℤ)
deriving DecidableEq, Repr

/-- The empty aggregation state created on a marker's first sample. -/
def initMarkerData : MarkerData := ⟨0, [], [], [], [], []⟩

/-- Read counts of allele `a` in a sample's observations. -/
def lookupRead (rd : List (ℕ × ℤ × ℤ)) (a : ℕ) : Option (ℤ × ℤ) :=
  (rd.find? fun e => e.1 == a).map Prod.snd

/-- Whether key `k` is present in an association list. -/
def assocHas (c : List (ℕ × List ℕ)) (k : ℕ) : Bool := c.any fun e => e.1 == k

/-- Value of key `k` in an association list (`[]` if absent). -/
def assocGet (c : List (ℕ × List ℕ)) (k : ℕ) : List ℕ :=
  ((c.find? fun e => e.1 == k).map Prod.snd).getD []

/-- Update the value of key `k` in an association list. -/
def assocUpdate (c : List (ℕ × List ℕ)) (k : ℕ) (f : List ℕ → List ℕ) :
    List (ℕ × List ℕ) :=
  c.map fun e => if e.1 == k then (e.1, f e.2) else e

/-- Counter increment `l[i] += 1` on a counter list. -/
def bumpAt (l : List ℕ) (i : ℕ) : List ℕ := l.set i (l.getD i 0 + 1)

/-- Modify the last element of a list (`lst[-1]`). -/
def modifyLast (f : α → α) : List α → List α
  | [] => []
  | [x] => [f x]
  | x :: y :: xs => x :: modifyLast f (y :: xs)

/-- Dictionary assignment `thr[i] = v` on an insertion-ordered list. -/
def thrSet (thr : List (ℕ × ℤ × ℤ)) (i : ℕ) (v : ℤ × ℤ) : List (ℕ × ℤ × ℤ) :=
  if thr.any fun e => e.1 == i then
    thr.map fun e => if e.1 == i then (i, v) else e
  else thr ++ [(i, v)]

/-- The threshold `math.ceil(x * min_pct / 100.)`, per direction. -/
def ceilTh (minPct : ℚ) (x : ℤ) : ℤ := ⌈(x : ℚ) * minPct / 100⌉

/-- Find an allele in the catalogue, or append it as a new column (the
shared `p["alleles"].index(allele)` / `except ValueError: append` pattern of
both loops of `add_sample_data`): all existing profile rows and counter rows
are retroactively extended with a zero for the new column.  Returns the
column index and the updated state. -/
def admitAllele (d : MarkerData) (a : ℕ) : ℕ × MarkerData :=
  match d.alleles.findIdx? fun b => b == a with
  | some i => (i, d)
  | none =>
    (d.alleles.length,
      { d with alleles := d.alleles ++ [a],
               profilesF := d.profilesF.map (· ++ [0]),
               profilesR := d.profilesR.map (· ++ [0]),
               alleleCounts := d.alleleCounts.map fun (e : ℕ × List ℕ) => (e.1, e.2 ++ [0]) })

/-- Create the recurrence counter of a newly established true allele
(`if i not in data[marker]["allele_counts"]`). -/
def ensureCounter (d : MarkerData) (i : ℕ) : MarkerData :=
  if assocHas d.alleleCounts i then d
  else { d with
          alleleCounts := d.alleleCounts ++ [(i, List.replicate d.alleles.length 0)],
          trueAlleles := d.trueAlleles + 1 }

/-- One true allele's admission in the first loop of `add_sample_data`:
find-or-append the catalogue column, create its counter if new, and append
the index to the sample's genotype. -/
def phase1Step (d : MarkerData) (a : ℕ) : ℕ × MarkerData :=
  let p := admitAllele d a
  let d2 := ensureCounter p.2 p.1
  (p.1, { d2 with genotypes := modifyLast (· ++ [p.1]) d2.genotypes })

/-- The first loop of `add_sample_data` (lines 343-384): admit the sample's
true alleles into the catalogue and counters, extend the genotype, and
compute the allele-specific inclusion thresholds.  Raises (models
`ValueError`) if a true allele is missing from the observations or has zero
reads in either direction. -/
def phase1 (minPct : ℚ) (rd : List (ℕ × ℤ × ℤ)) :
    List ℕ → MarkerData → List (ℕ × ℤ × ℤ) →
    Except String (MarkerData × List (ℕ × ℤ × ℤ))
  | [], d, thr => .ok (d, thr)
  | a :: rest, d, thr =>
    match lookupRead rd a with
    | none => .error "Missing allele!"
    | some (f, r) =>
      if f = 0 ∨ r = 0 then .error "Allele has 0 reads!"
      else
        let p := phase1Step d a
        phase1 minPct rd rest p.2 (thrSet thr p.1 (ceilTh minPct f, ceilTh minPct r))

/-- One observation's entry in the second loop of `add_sample_data`:
find-or-append the catalogue column, store the read counts in the sample's
profile rows, and bump each of the sample's true-allele counters when the
observation passes `max(min_abs, threshold)` in at least one direction. -/
def phase2Step (minAbs : ℤ) (thr : List (ℕ × ℤ × ℤ)) (d : MarkerData)
    (a : ℕ) (f r : ℤ) : MarkerData :=
  let p := admitAllele d a
  let i := p.1
  let d2 := { p.2 with
               profilesF := modifyLast (fun row => row.set i f) p.2.profilesF,
               profilesR := modifyLast (fun row => row.set i r) p.2.profilesR }
  thr.foldl
    (fun dd e =>
      if f ≥ max minAbs e.2.1 ∨ r ≥ max minAbs e.2.2 then
        { dd with alleleCounts := assocUpdate dd.alleleCounts e.1 (bumpAt · i) }
      else dd)
    d2

/-- The second loop of `add_sample_data` (lines 386-411). -/
def phase2 (minAbs : ℤ) (thr : List (ℕ × ℤ × ℤ)) :
    List (ℕ × ℤ × ℤ) → MarkerData → MarkerData
  | [], d => d
  | (a, f, r) :: rest, d => phase2 minAbs thr rest (phase2Step minAbs thr d a f r)

/-- Model of `add_sample_data` for one sample on one marker: a sample with no true
alleles is skipped entirely; otherwise new zero profile rows and an empty
genotype are appended and the two loops run. -/
def add_sample_data (minPct : ℚ) (minAbs : ℤ) (s : SampleIn) (d : MarkerData) :
    Except String MarkerData :=
  if s.trueSet.isEmpty then .ok d
  else
    let d0 := { d with
                 profilesF := d.profilesF ++ [List.replicate d.alleles.length 0],
                 profilesR := d.profilesR ++ [List.replicate d.alleles.length 0],
                 genotypes := d.genotypes ++ [[]] }
    match phase1 minPct s.readData s.trueSet d0 [] with
    | .error e => .error e
    | .ok (d1, thr) => .ok (phase2 minAbs thr s.readData d1)

/-- Fold a list of samples into the aggregation state of one marker. -/
def processSamples (minPct : ℚ) (minAbs : ℤ) (samples : List SampleIn) :
    Except String MarkerData :=
  samples.foldlM (fun d s => add_sample_data minPct minAbs s d) initMarkerData

/-- Python `sorted(counts)`: the true-allele catalogue indices in ascending order.
(The counter keys are distinct indices into the catalogue, so sorting them
is the same as filtering the catalogue positions that carry a counter.) -/
def sortedKeys (d : MarkerData) : List ℕ :=
  (List.range d.alleles.length).filter fun i => assocHas d.alleleCounts i

/-- The background-significance test of `preprocess_data` for column `i`:
some true allele `gi` has `counts[gi][i] >= min_sample_pct * counts[gi][gi] / 100`. -/
def keepCol (minSamplePct : ℚ) (d : MarkerData) (i : ℕ) : Bool :=
  d.alleleCounts.any fun e =>
    ((e.2.getD i 0 : ℚ)) ≥ minSamplePct * (e.2.getD e.1 0 : ℚ) / 100

/-- The column permutation `order` built by `preprocess_data`: the sorted
true-allele indices followed by the surviving noise columns in index order. -/
def ppOrder (minSamplePct : ℚ) (d : MarkerData) : List ℕ :=
  sortedKeys d ++ ((List.range d.alleles.length).filter fun i =>
    !(assocHas d.alleleCounts i) && keepCol minSamplePct d i)

/-- Model of `preprocess_data` for one marker (lines 424-443): drop insignificant
background columns, move true alleles to the front, remap the genotype
indices through the new order, and delete the counters. -/
def preprocess_data (minSamplePct : ℚ) (d : MarkerData) : MarkerData :=
  let ord := ppOrder minSamplePct d
  { trueAlleles := d.trueAlleles,
    alleles := ord.map fun i => d.alleles.getD i 0,
    profilesF := d.profilesF.map fun row => ord.map fun i => row.getD i 0,
    profilesR := d.profilesR.map fun row => ord.map fun i => row.getD i 0,
    alleleCounts := [],
    genotypes := d.genotypes.map fun g => g.map fun y => ord.findIdx (· == y) }

/-! ### Final rounding (`bgestimate.py` lines 533-540) -/

/-- Python 2 `round` to the nearest integer (ties away from zero). -/
def pyRound (q : ℚ) : ℤ := if q ≥ 0 then ⌊q + 1 / 2⌋ else ⌈q - 1 / 2⌉

/-- Python `round(x, 3)`: round to 3 decimal digits. -/
def round3 (q : ℚ) : ℚ := (pyRound (q * 1000) : ℚ) / 1000

/-- A rational value that carries at most 3 decimal digits. -/
def threeDecimals (q : ℚ) : Prop := (q * 1000).den = 1

instance : DecidablePred threeDecimals := fun q =>
  inferInstanceAs (Decidable ((q * 1000).den = 1))

/-- The profile matrix of one marker and direction as produced by
`generate_profiles`: the solver output rounded to 3 decimal digits
(`generate_profiles` never requests variance estimation). -/
def generate_profiles_single (nnlsFn : List (List ℚ) → List ℚ → List ℚ)
    (S : List (List ℚ)) (G : List (List ℕ)) (n : ℕ) : List (List ℚ) :=
  let m := (S.headD []).length
  let P := (solve_profile_mixture_single false nnlsFn S G n).P
  (List.range n).map fun i => (List.range m).map fun k => round3 (P i k)

/-! ### Specification-side predicates and concrete instances -/

/-- The closed form of one sample's contribution to the evidence matrix:
for each genotype entry `j` equal to row `r` whose raw count is non-zero,
the sample's vector rescaled by `100 / count / glen`. -/
def contribC (s : List ℚ) (glen : ℕ) (g : List ℕ) (r k : ℕ) : ℚ :=
  (g.map fun j =>
    if j = r ∧ s.getD j 0 ≠ 0 then 100 / s.getD j 0 / (glen : ℚ) * s.getD k 0
    else 0).sum

/-- The invariant of the profile matrix claimed by the specification:
`P[j,j] = 100` on every true-allele row and all entries non-negative. -/
def profileInvariant (n : ℕ) (P : Mat) : Prop :=
  (∀ j, j < n → P j j = 100) ∧ ∀ i k, 0 ≤ P i k

/-- The invariant of the variance matrix claimed by the specification:
non-negative entries, zero diagonal, and zero wherever the profile is zero. -/
def varianceInvariant (P V : Mat) : Prop :=
  (∀ p k, 0 ≤ V p k) ∧ (∀ p, V p p = 0) ∧ ∀ p k, P p k = 0 → V p k = 0

/-- The list of true-allele counter keys, in the order in which the alleles
were first established as true alleles. -/
def dKeys (d : MarkerData) : List ℕ := d.alleleCounts.map Prod.fst

/-- Well-formedness of the aggregation state, maintained by
`add_sample_data`: counter keys are distinct catalogue indices, the
true-allele count matches the number of counters, and genotypes only
reference countered (true-allele) indices. -/
structure AggInv (d : MarkerData) : Prop where
  nodup : (dKeys d).Nodup
  bounded : ∀ k ∈ dKeys d, k < d.alleles.length
  count : d.trueAlleles = (dKeys d).length
  gtKeys : ∀ g ∈ d.genotypes, ∀ y ∈ g, y ∈ dKeys d

/-! ### Concrete aggregation inputs used by the claims -/

/-- C5 counterexample input: two samples, both carrying true allele 7; in
the first sample allele 7 itself has only 3/3 reads (below `min_abs = 5`),
so it fails its own detection threshold there; the second sample also shows
noise variant 8 at 50/50 reads. -/
def c5samples : List SampleIn :=
  [⟨[7], [(7, 3, 3)]⟩,
   ⟨[7], [(7, 100, 100), (8, 50, 50)]⟩]

/-- The aggregated state of `c5samples` (with `min_pct = 0.5`,
`min_abs = 5`). -/
def c5data : MarkerData :=
  (processSamples (1 / 2) 5 c5samples).toOption.getD initMarkerData

/-- A sample homozygous for allele 0 with 100/100 reads and no noise. -/
def cleanSample : SampleIn := ⟨[0], [(0, 100, 100)]⟩

/-- The same sample, additionally showing noise variant 1 at 50/50 reads. -/
def noisySample : SampleIn := ⟨[0], [(0, 100, 100), (1, 50, 50)]⟩

/-- Ten samples carrying allele 0; the noise variant appears in 1 of 10. -/
def c5dropSamples : List SampleIn := noisySample :: List.replicate 9 cleanSample

/-- Ten samples carrying allele 0; the noise variant appears in 9 of 10. -/
def c5keepSamples : List SampleIn := cleanSample :: List.replicate 9 noisySample

/-- Aggregated state of `c5dropSamples`. -/
def c5dropData : MarkerData :=
  (processSamples (1 / 2) 5 c5dropSamples).toOption.getD initMarkerData

/-- Aggregated state of `c5keepSamples`. -/
def c5keepData : MarkerData :=
  (processSamples (1 / 2) 5 c5keepSamples).toOption.getD initMarkerData

/-- C8 counterexample input: allele 10 is established as a true allele
first; alleles 11 and 12 enter the catalogue as sample 1's noise variants
(indices 1 and 2); sample 2 then establishes index 2 (allele 12) as a true
allele before sample 3 establishes index 1 (allele 11). -/
def c8samples : List SampleIn :=
  [⟨[10], [(10, 100, 100), (11, 50, 50), (12, 50, 50)]⟩,
   ⟨[12], [(12, 100, 100)]⟩,
   ⟨[11], [(11, 100, 100)]⟩]

/-- The aggregated state of `c8samples`. -/
def c8data : MarkerData :=
  (processSamples (1 / 2) 5 c8samples).toOption.getD initMarkerData

/-! ### Helper lemmas about finite sums -/

theorem sumR_zero (f : ℕ → ℚ) : sumR 0 f = 0 := rfl

theorem sumR_succ (n : ℕ) (f : ℕ → ℚ) : sumR (n + 1) f = sumR n f + f n := by
  simp [sumR, List.range_succ]

theorem sumR_congr {n : ℕ} {f g : ℕ → ℚ} (h : ∀ i, i < n → f i = g i) :
    sumR n f = sumR n g := by
  induction n with
  | zero => rfl
  | succ n ih =>
    rw [sumR_succ, sumR_succ, ih fun i hi => h i (Nat.lt_succ_of_lt hi),
      h n (Nat.lt_succ_self n)]

theorem sumR_const_zero (n : ℕ) : sumR n (fun _ => 0) = 0 := by
  induction n with
  | zero => rfl
  | succ n ih => rw [sumR_succ, ih, add_zero]

theorem sumR_eq_zero {n : ℕ} {f : ℕ → ℚ} (h : ∀ i, i < n → f i = 0) :
    sumR n f = 0 := by
  rw [sumR_congr h, sumR_const_zero]

/-! ### Closed form of the evidence matrix -/

theorem addEntryC_eq (s : List ℚ) (glen : ℕ) (C : Mat) (j r k : ℕ) :
    addEntryC s glen C j r k =
      C r k + if j = r ∧ s.getD j 0 ≠ 0 then
        100 / s.getD j 0 / (glen : ℚ) * s.getD k 0 else 0 := by
  unfold addEntryC
  split
  next h0 => rw [if_neg (fun hh => hh.2 h0), add_zero]
  next h0 =>
    simp only []
    by_cases hj : r = j
    · subst hj
      rw [if_pos rfl, if_pos ⟨rfl, h0⟩]
    · rw [if_neg hj, if_neg (fun hh => hj hh.1.symm), add_zero]

theorem addSampleCAux_eq (s : List ℚ) (glen : ℕ) (r k : ℕ) :
    ∀ (g : List ℕ) (C : Mat),
      addSampleCAux s glen C g r k = C r k + contribC s glen g r k := by
  intro g
  induction g with
  | nil => intro C; simp [addSampleCAux, contribC]
  | cons j g ih =>
    intro C
    have : addSampleCAux s glen C (j :: g) = addSampleCAux s glen (addEntryC s glen C j) g := rfl
    rw [this, ih, addEntryC_eq]
    simp [contribC, add_assoc]

theorem addSampleC_eq (C : Mat) (s : List ℚ) (g : List ℕ) (r k : ℕ) :
    addSampleC C s g r k = C r k + contribC s g.length g r k :=
  addSampleCAux_eq s g.length r k g C

theorem buildC_fold_eq (S : List (List ℚ)) (G : List (List ℕ)) (r k : ℕ) :
    ∀ (L : List ℕ) (C0 : Mat),
      (L.foldl (fun C i => addSampleC C (S.getD i []) (gtOf G i)) C0) r k =
        C0 r k +
          (L.map fun i =>
            contribC (S.getD i []) (gtOf G i).length (gtOf G i) r k).sum := by
  intro L
  induction L with
  | nil => intro C0; simp
  | cons i L ih =>
    intro C0
    simp only [List.foldl_cons, List.map_cons, List.sum_cons]
    rw [ih, addSampleC_eq, add_assoc]

theorem buildC_eq (S : List (List ℚ)) (G : List (List ℕ)) (r k : ℕ) :
    buildC S G r k =
      sumR S.length fun i =>
        contribC (S.getD i []) (gtOf G i).length (gtOf G i) r k := by
  unfold buildC sumR
  rw [buildC_fold_eq]
  simp

/-! ### Diagnostic-log lemmas -/

theorem updateRowP_log_false (E F : Mat) (n v : ℕ) (PL : Mat × List Note) (p : ℕ) :
    (updateRowP E F n false v PL p).2 = PL.2 := by
  unfold updateRowP
  split <;> simp

theorem foldl_updateRowP_log_false (E F : Mat) (n v : ℕ) :
    ∀ (L : List ℕ) (PL : Mat × List Note),
      (L.foldl (updateRowP E F n false v) PL).2 = PL.2 := by
  intro L
  induction L with
  | nil => intro PL; rfl
  | cons p L ih =>
    intro PL
    rw [List.foldl_cons, ih]
    exact updateRowP_log_false E F n v PL p

theorem sweepP_log_false (E F : Mat) (n v : ℕ) (P : Mat) :
    (sweepP E F n false v P).2 = [] :=
  foldl_updateRowP_log_false E F n v (List.range n) (P, [])

theorem innerGoP_log_false (A C E F : Mat) (n m v : ℕ) :
    ∀ (fuel : ℕ) (prev : ℚ) (P : Mat),
      (innerGoP A C E F n m false v fuel prev P).2.2 = [] := by
  intro fuel
  induction fuel with
  | zero => intro prev P; rfl
  | succ fuel ih =>
    intro prev P
    simp only [innerGoP]
    split
    · exact sweepP_log_false E F n v P
    · rw [sweepP_log_false, List.nil_append]
      exact ih _ _

theorem outerGoP_log_false (nnlsFn : List (List ℚ) → List ℚ → List ℚ)
    (S : List (List ℚ)) (G : List (List ℕ)) (n m : ℕ) (C : Mat) :
    ∀ (fuel : ℕ) (prev : ℚ) (v : ℕ) (P : Mat),
      (outerGoP nnlsFn S G n m false C fuel prev v P).log = [] := by
  intro fuel
  induction fuel with
  | zero => intro prev v P; rfl
  | succ fuel ih =>
    intro prev v P
    simp only [outerGoP]
    split
    · simp [innerGoP_log_false]
    · simp [innerGoP_log_false, ih]

theorem solve_log_false (nnlsFn : List (List ℚ) → List ℚ → List ℚ)
    (S : List (List ℚ)) (G : List (List ℕ)) (n : ℕ) :
    (solve_profile_mixture_single false nnlsFn S G n).log = [] := by
  unfold solve_profile_mixture_single
  simp [cNotes, outerGoP_log_false]

theorem cNotes_mem (S : List (List ℚ)) (G : List (List ℕ)) (i0 j0 : ℕ)
    (hi : i0 < S.length) (hj : j0 ∈ gtOf G i0) (h0 : sampleEntry S i0 j0 = 0) :
    Note.missingAllele i0 j0 ∈ cNotes true S G := by
  unfold cNotes
  rw [if_pos rfl]
  refine List.mem_flatMap.mpr ⟨i0, List.mem_range.mpr hi, ?_⟩
  exact List.mem_map.mpr ⟨j0, List.mem_filter.mpr ⟨hj, by simp [h0]⟩, rfl⟩

theorem outerGoP_succ_iters (nnlsFn : List (List ℚ) → List ℚ → List ℚ)
    (S : List (List ℚ)) (G : List (List ℕ)) (n m : ℕ) (report : Bool) (C : Mat)
    (fuel : ℕ) (prev : ℚ) (v : ℕ) (P : Mat) :
    1 ≤ (outerGoP nnlsFn S G n m report C (fuel + 1) prev v P).outerIters := by
  simp only [outerGoP]
  split
  · exact le_refl 1
  · exact Nat.le_add_left 1 _

theorem contribC_nil (s : List ℚ) (glen r k : ℕ) : contribC s glen [] r k = 0 := rfl

theorem contribC_cons (s : List ℚ) (glen : ℕ) (j : ℕ) (g : List ℕ) (r k : ℕ) :
    contribC s glen (j :: g) r k =
      (if j = r ∧ s.getD j 0 ≠ 0 then 100 / s.getD j 0 / (glen : ℚ) * s.getD k 0
        else 0) + contribC s glen g r k := by
  unfold contribC
  rw [List.map_cons, List.sum_cons]

/-! ### Claim C2: construction of the evidence matrix -/

/-- Claim C2: the evidence matrix `C` is built by, for each sample `i` and
each of its true alleles `j` with a non-zero raw count, rescaling the
sample's full observed vector by `100 / count(j) / |genotype|` and adding it
into row `j`; a homozygous sample contributes to exactly one row and a
heterozygous sample to exactly two rows, each contribution down-weighted by
one half. -/
theorem claim_C2 :
    (∀ (S : List (List ℚ)) (G : List (List ℕ)) (r k : ℕ),
      buildC S G r k =
        sumR S.length fun i =>
          contribC (S.getD i []) (gtOf G i).length (gtOf G i) r k)
    ∧ (∀ (C : Mat) (s : List ℚ) (j k : ℕ), s.getD j 0 ≠ 0 →
        addSampleC C s [j] j k =
          C j k + 100 / s.getD j 0 / ((1 : ℕ) : ℚ) * s.getD k 0
        ∧ ∀ r, r ≠ j → addSampleC C s [j] r k = C r k)
    ∧ (∀ (C : Mat) (s : List ℚ) (j1 j2 k : ℕ), j1 ≠ j2 →
        s.getD j1 0 ≠ 0 → s.getD j2 0 ≠ 0 →
        addSampleC C s [j1, j2] j1 k =
          C j1 k + 100 / s.getD j1 0 / ((2 : ℕ) : ℚ) * s.getD k 0
        ∧ addSampleC C s [j1, j2] j2 k =
            C j2 k + 100 / s.getD j2 0 / ((2 : ℕ) : ℚ) * s.getD k 0
        ∧ ∀ r, r ≠ j1 → r ≠ j2 → addSampleC C s [j1, j2] r k = C r k) := by
  refine ⟨buildC_eq, ?_, ?_⟩
  · intro C s j k h
    constructor
    · rw [addSampleC_eq, contribC_cons, contribC_nil, if_pos ⟨rfl, h⟩]
      norm_num
    · intro r hr
      rw [addSampleC_eq, contribC_cons, contribC_nil,
        if_neg (fun hh => hr hh.1.symm), add_zero, add_zero]
  · intro C s j1 j2 k hne h1 h2
    refine ⟨?_, ?_, ?_⟩
    · rw [addSampleC_eq, contribC_cons, contribC_cons, contribC_nil,
        if_pos ⟨rfl, h1⟩, if_neg (fun hh => hne hh.1.symm)]
      norm_num
    · rw [addSampleC_eq, contribC_cons, contribC_cons, contribC_nil,
        if_neg (fun hh => hne hh.1), if_pos ⟨rfl, h2⟩]
      norm_num
    · intro r hr1 hr2
      rw [addSampleC_eq, contribC_cons, contribC_cons, contribC_nil,
        if_neg (fun hh => hr1 hh.1.symm), if_neg (fun hh => hr2 hh.1.symm),
        add_zero, add_zero, add_zero]

/-- Witness for C2 at a concrete heterozygous sample. -/
theorem claim_C2_witness :
    ([(5 : ℚ), 10].getD 0 0 ≠ 0 ∧ [(5 : ℚ), 10].getD 1 0 ≠ 0) ∧
    addSampleC (fun _ _ => 0) [(5 : ℚ), 10] [0, 1] 0 1 =
      (fun _ _ => (0 : ℚ)) 0 1 + 100 / [(5 : ℚ), 10].getD 0 0 / ((2 : ℕ) : ℚ) *
        [(5 : ℚ), 10].getD 1 0 :=
  ⟨⟨by decide, by decide⟩,
    (claim_C2.2.2 (fun _ _ => 0) [(5 : ℚ), 10] 0 1 1 (by decide) (by decide)
      (by decide)).1⟩

/-! ### Claim C10: zero-count true alleles are skipped with a note -/

/-- Claim C10: if a sample's read count at one of its declared true alleles
is zero, that (sample, allele) contribution is skipped while accumulating
the evidence matrix (`except ZeroDivisionError: continue`), a note is
written to the diagnostic sink when one is present (and the log stays empty
when none is), and the solver still runs to completion. -/
theorem claim_C10 (S : List (List ℚ)) (G : List (List ℕ)) (n : ℕ)
    (nnlsFn : List (List ℚ) → List ℚ → List ℚ) (i0 j0 : ℕ)
    (hi : i0 < S.length) (hj : j0 ∈ gtOf G i0)
    (h0 : sampleEntry S i0 j0 = 0) :
    (∀ (C : Mat) (glen : ℕ), addEntryC (S.getD i0 []) glen C j0 = C)
    ∧ (∀ (s : List ℚ) (glen : ℕ) (C : Mat) (g : List ℕ),
        addSampleCAux s glen C g =
          addSampleCAux s glen C (g.filter fun j => !decide (s.getD j 0 = 0)))
    ∧ Note.missingAllele i0 j0 ∈ (solve_profile_mixture_single true nnlsFn S G n).log
    ∧ (solve_profile_mixture_single false nnlsFn S G n).log = []
    ∧ 1 ≤ (solve_profile_mixture_single true nnlsFn S G n).outerIters := by
  refine ⟨?_, ?_, ?_, solve_log_false nnlsFn S G n, ?_⟩
  · intro C glen
    have h0' : (S.getD i0 []).getD j0 0 = 0 := h0
    unfold addEntryC
    rw [if_pos h0']
  · intro s glen C g
    induction g generalizing C with
    | nil => rfl
    | cons j g ih =>
      by_cases hz : s.getD j 0 = 0
      · have hb : (!decide (s.getD j 0 = 0)) = false := by rw [hz]; rfl
        have h1 : addSampleCAux s glen C (j :: g) = addSampleCAux s glen C g := by
          show addSampleCAux s glen (addEntryC s glen C j) g = _
          unfold addEntryC
          rw [if_pos hz]
        rw [h1, ih, List.filter_cons, hb]
        simp
      · have hb : (!decide (s.getD j 0 = 0)) = true := by
          rw [Bool.not_eq_true', decide_eq_false_iff_not]
          exact hz
        rw [List.filter_cons, hb]
        show addSampleCAux s glen (addEntryC s glen C j) g = _
        rw [ih]
        rfl
  · unfold solve_profile_mixture_single
    exact List.mem_append_left _ (cNotes_mem S G i0 j0 hi hj h0)
  · unfold solve_profile_mixture_single
    exact outerGoP_succ_iters nnlsFn S G n _ true _ 199 floatMax 0 _

/-- Witness for C10: a sample whose single true allele has zero reads. -/
theorem claim_C10_witness :
    (0 < 1 ∧ (0 : ℕ) ∈ gtOf [[0]] 0 ∧ sampleEntry [[(0 : ℚ), 5]] 0 0 = 0) ∧
    Note.missingAllele 0 0 ∈
      (solve_profile_mixture_single true nnls0 [[(0 : ℚ), 5]] [[0]] 1).log :=
  ⟨⟨by decide, by decide, by decide⟩,
    (claim_C10 [[(0 : ℚ), 5]] [[0]] 1 nnls0 0 0 (by decide) (by decide)
      (by decide)).2.2.1⟩

/-! ### Claim C1: profile invariant (diagonal 100, non-negative entries) -/

theorem updateRowP_inv (E F : Mat) (n : ℕ) (report : Bool) (v : ℕ)
    (PL : Mat × List Note) (p : ℕ) (h : profileInvariant n PL.1) :
    profileInvariant n (updateRowP E F n report v PL p).1 := by
  unfold updateRowP
  by_cases hE : E p p = 0
  · rw [if_pos hE]
    refine ⟨fun j hj => ?_, fun i k => ?_⟩
    · show (if j = p ∧ j < n ∧ j ≠ p then 0 else PL.1 j j) = 100
      rw [if_neg (fun hh => hh.2.2 hh.1), h.1 j hj]
    · show (0 : ℚ) ≤ if i = p ∧ k < n ∧ k ≠ p then 0 else PL.1 i k
      split
      · exact le_refl 0
      · exact h.2 i k
  · rw [if_neg hE]
    refine ⟨fun j hj => ?_, fun i k => ?_⟩
    · show (if j = p then if j = p then (100 : ℚ) else _ else PL.1 j j) = 100
      by_cases hjp : j = p
      · rw [if_pos hjp, if_pos hjp]
      · rw [if_neg hjp, h.1 j hj]
    · show (0 : ℚ) ≤ if i = p then if k = p then (100 : ℚ) else _ else PL.1 i k
      by_cases hip : i = p
      · rw [if_pos hip]
        by_cases hkp : k = p
        · rw [if_pos hkp]; norm_num
        · rw [if_neg hkp]
          split
          · exact le_refl 0
          · exact le_of_not_lt (by assumption)
      · rw [if_neg hip]
        exact h.2 i k

theorem foldl_updateRowP_inv (E F : Mat) (n : ℕ) (report : Bool) (v : ℕ) :
    ∀ (L : List ℕ) (PL : Mat × List Note), profileInvariant n PL.1 →
      profileInvariant n ((L.foldl (updateRowP E F n report v) PL)).1 := by
  intro L
  induction L with
  | nil => intro PL h; exact h
  | cons p L ih =>
    intro PL h
    rw [List.foldl_cons]
    exact ih _ (updateRowP_inv E F n report v PL p h)

theorem sweepP_inv (E F : Mat) (n : ℕ) (report : Bool) (v : ℕ) (P : Mat)
    (h : profileInvariant n P) : profileInvariant n (sweepP E F n report v P).1 :=
  foldl_updateRowP_inv E F n report v (List.range n) (P, []) h

theorem innerGoP_inv (A C E F : Mat) (n m : ℕ) (report : Bool) (v : ℕ) :
    ∀ (fuel : ℕ) (prev : ℚ) (P : Mat), profileInvariant n P →
      profileInvariant n (innerGoP A C E F n m report v fuel prev P).1 := by
  intro fuel
  induction fuel with
  | zero => intro prev P h; exact h
  | succ fuel ih =>
    intro prev P h
    simp only [innerGoP]
    split
    · exact sweepP_inv E F n report v P h
    · exact ih _ _ (sweepP_inv E F n report v P h)

theorem outerGoP_inv (nnlsFn : List (List ℚ) → List ℚ → List ℚ)
    (S : List (List ℚ)) (G : List (List ℕ)) (n m : ℕ) (report : Bool) (C : Mat) :
    ∀ (fuel : ℕ) (prev : ℚ) (v : ℕ) (P : Mat), profileInvariant n P →
      profileInvariant n (outerGoP nnlsFn S G n m report C fuel prev v P).P := by
  intro fuel
  induction fuel with
  | zero => intro prev v P h; exact h
  | succ fuel ih =>
    intro prev v P h
    simp only [outerGoP]
    split
    · exact innerGoP_inv _ C _ _ n m report v 200 floatMax P h
    · exact ih _ _ _ (innerGoP_inv _ C _ _ n m report v 200 floatMax P h)

theorem initP_inv {n m : ℕ} (h : n ≤ m) : profileInvariant n (initP n m) := by
  refine ⟨fun j hj => ?_, fun i k => ?_⟩
  · show (if j = j ∧ j < n ∧ j < m then (100 : ℚ) else 0) = 100
    rw [if_pos ⟨rfl, hj, lt_of_lt_of_le hj h⟩]
  · show (0 : ℚ) ≤ if i = k ∧ i < n ∧ i < m then 100 else 0
    split
    · norm_num
    · exact le_refl 0

/-- Claim C1: on every outer iteration of `solve_profile_mixture_single`
and in the final returned value, the profile matrix keeps `P[j,j] = 100`
for every true-allele row `j < n` and all entries non-negative, provided
the catalogue has at least `n` columns (the documented precondition that
the first `n` catalogue entries are the true alleles). -/
theorem claim_C1 (S : List (List ℚ)) (G : List (List ℕ)) (n : ℕ)
    (nnlsFn : List (List ℚ) → List ℚ → List ℚ) (report : Bool)
    (hnm : n ≤ (S.headD []).length) :
    (∀ fuel prev v,
      profileInvariant n
        (outerGoP nnlsFn S G n ((S.headD []).length) report (buildC S G)
          fuel prev v (initP n ((S.headD []).length))).P)
    ∧ profileInvariant n (solve_profile_mixture_single report nnlsFn S G n).P := by
  constructor
  · intro fuel prev v
    exact outerGoP_inv nnlsFn S G n _ report _ fuel prev v _ (initP_inv hnm)
  · exact outerGoP_inv nnlsFn S G n _ report _ 200 floatMax 0 _ (initP_inv hnm)

/-- Witness for C1 on a concrete run. -/
theorem claim_C1_witness :
    (1 ≤ ([[(100 : ℚ), 10]].headD []).length) ∧
    (solve_profile_mixture_single false nnls0 [[(100 : ℚ), 10]] [[0]] 1).P 0 0 = 100 :=
  ⟨by decide,
    (claim_C1 [[(100 : ℚ), 10]] [[0]] 1 nnls0 false (by decide)).2.1 0 (by decide)⟩

/-! ### Claim C7: variance invariant -/

theorem updateRowV_inv (E F : Mat) (n : ℕ) (P V : Mat) (p : ℕ)
    (h : varianceInvariant P V) : varianceInvariant P (updateRowV E F n P V p) := by
  unfold updateRowV
  by_cases hE : E p p = 0
  · rw [if_pos hE]
    refine ⟨fun q k => ?_, fun q => ?_, fun q k hP => ?_⟩
    · show (0 : ℚ) ≤ if q = p then 0 else V q k
      split
      · exact le_refl 0
      · exact h.1 q k
    · show (if q = p then 0 else V q q) = 0
      split
      · rfl
      · exact h.2.1 q
    · show (if q = p then 0 else V q k) = 0
      split
      · rfl
      · exact h.2.2 q k hP
  · rw [if_neg hE]
    refine ⟨fun q k => ?_, fun q => ?_, fun q k hP => ?_⟩
    · show (0 : ℚ) ≤ if q = p then if k = p ∨ P p k = 0 then 0 else _ else V q k
      by_cases hq : q = p
      · rw [if_pos hq]
        split
        · exact le_refl 0
        · split
          · exact le_refl 0
          · exact le_of_not_lt (by assumption)
      · rw [if_neg hq]
        exact h.1 q k
    · show (if q = p then if q = p ∨ P p q = 0 then 0 else _ else V q q) = 0
      by_cases hq : q = p
      · rw [if_pos hq, if_pos (Or.inl hq)]
      · rw [if_neg hq]
        exact h.2.1 q
    · show (if q = p then if k = p ∨ P p k = 0 then 0 else _ else V q k) = 0
      by_cases hq : q = p
      · rw [if_pos hq, if_pos (Or.inr (hq ▸ hP))]
      · rw [if_neg hq]
        exact h.2.2 q k hP

theorem foldl_updateRowV_inv (E F : Mat) (n : ℕ) (P : Mat) :
    ∀ (L : List ℕ) (V : Mat), varianceInvariant P V →
      varianceInvariant P (L.foldl (updateRowV E F n P) V) := by
  intro L
  induction L with
  | nil => intro V h; exact h
  | cons p L ih =>
    intro V h
    rw [List.foldl_cons]
    exact ih _ (updateRowV_inv E F n P V p h)

theorem sweepV_inv (E F : Mat) (n : ℕ) (P V : Mat)
    (h : varianceInvariant P V) : varianceInvariant P (sweepV E F n P V) :=
  foldl_updateRowV_inv E F n P (List.range n) V h

theorem innerGoV_inv (Arows Crows : List (ℕ → ℚ)) (E F : Mat) (n m : ℕ) (P : Mat) :
    ∀ (fuel : ℕ) (prev : ℚ) (V : Mat), varianceInvariant P V →
      varianceInvariant P (innerGoV Arows Crows E F n m P fuel prev V) := by
  intro fuel
  induction fuel with
  | zero => intro prev V h; exact h
  | succ fuel ih =>
    intro prev V h
    simp only [innerGoV]
    split
    · exact sweepV_inv E F n P V h
    · exact ih _ _ (sweepV_inv E F n P V h)

/-- Claim C7: when variance estimation is requested, the returned variance
matrix is non-negative everywhere, has a zero diagonal, and is zero at every
position where the profile matrix is zero. -/
theorem claim_C7 (report : Bool) (nnlsFn : List (List ℚ) → List ℚ → List ℚ)
    (S : List (List ℚ)) (G : List (List ℕ)) (n : ℕ) :
    varianceInvariant (solve_profile_mixture_single_variance report nnlsFn S G n).P
      (solve_profile_mixture_single_variance report nnlsFn S G n).V := by
  unfold solve_profile_mixture_single_variance
  exact innerGoV_inv _ _ _ _ n _ _ 200 floatMax _
    ⟨fun _ _ => le_refl 0, fun _ => rfl, fun _ _ _ => rfl⟩

/-- Witness for C7 on a concrete variance run (`P 0 2 = 0` holds there, so
the mask hypothesis of the invariant can be discharged concretely). -/
theorem claim_C7_witness :
    (solve_profile_mixture_single_variance false nnls0
        [[(100 : ℚ), 10], [100, 6], [100, 14]] [[0], [0], [0]] 1).P 0 2 = 0 ∧
    (solve_profile_mixture_single_variance false nnls0
        [[(100 : ℚ), 10], [100, 6], [100, 14]] [[0], [0], [0]] 1).V 0 2 = 0 :=
  ⟨by decide,
    (claim_C7 false nnls0 [[(100 : ℚ), 10], [100, 6], [100, 14]] [[0], [0], [0]]
      1).2.2 0 2 (by decide)⟩

/-! ### Claim C4: guaranteed termination within the iteration caps -/

theorem innerGoP_iters_le (A C E F : Mat) (n m : ℕ) (report : Bool) (v : ℕ) :
    ∀ (fuel : ℕ) (prev : ℚ) (P : Mat),
      (innerGoP A C E F n m report v fuel prev P).2.1 ≤ fuel := by
  intro fuel
  induction fuel with
  | zero => intro prev P; exact le_refl 0
  | succ fuel ih =>
    intro prev P
    simp only [innerGoP]
    split
    · exact Nat.succ_le_succ (Nat.zero_le fuel)
    · exact Nat.succ_le_succ (ih _ _)

theorem outerGoP_iters_le (nnlsFn : List (List ℚ) → List ℚ → List ℚ)
    (S : List (List ℚ)) (G : List (List ℕ)) (n m : ℕ) (report : Bool) (C : Mat) :
    ∀ (fuel : ℕ) (prev : ℚ) (v : ℕ) (P : Mat),
      (outerGoP nnlsFn S G n m report C fuel prev v P).outerIters ≤ fuel ∧
      ∀ w ∈ (outerGoP nnlsFn S G n m report C fuel prev v P).innerIters, w ≤ 200 := by
  intro fuel
  induction fuel with
  | zero =>
    intro prev v P
    exact ⟨le_refl 0, fun w hw => absurd hw (List.not_mem_nil w)⟩
  | succ fuel ih =>
    intro prev v P
    simp only [outerGoP]
    split
    · refine ⟨Nat.succ_le_succ (Nat.zero_le fuel), fun w hw => ?_⟩
      rw [List.mem_singleton] at hw
      rw [hw]
      exact innerGoP_iters_le _ C _ _ n m report v 200 floatMax P
    · refine ⟨Nat.succ_le_succ (ih _ _ _).1, fun w hw => ?_⟩
      rcases List.mem_cons.mp hw with h | h
      · rw [h]
        exact innerGoP_iters_le _ C _ _ n m report v 200 floatMax P
      · exact (ih _ _ _).2 w h

/-- Claim C4: the solver always terminates: the outer loop executes at most
200 iterations, every inner sweep loop executes at most 200 iterations, and
exhausting the iteration budget is not an error — at the cap the current
profile matrix is returned as-is. -/
theorem claim_C4 (S : List (List ℚ)) (G : List (List ℕ)) (n : ℕ)
    (nnlsFn : List (List ℚ) → List ℚ → List ℚ) (report : Bool) :
    (solve_profile_mixture_single report nnlsFn S G n).outerIters ≤ 200
    ∧ (∀ w ∈ (solve_profile_mixture_single report nnlsFn S G n).innerIters, w ≤ 200)
    ∧ ∀ (C0 : Mat) (m : ℕ) (prev : ℚ) (v : ℕ) (Q : Mat),
        outerGoP nnlsFn S G n m report C0 0 prev v Q = ⟨Q, 0, [], []⟩ := by
  refine ⟨?_, ?_, fun C0 m prev v Q => rfl⟩
  · exact (outerGoP_iters_le nnlsFn S G n _ report _ 200 floatMax 0 _).1
  · exact (outerGoP_iters_le nnlsFn S G n _ report _ 200 floatMax 0 _).2

/-- Witness for C4: the concrete inner sweep count of a small run obeys the
cap. -/
theorem claim_C4_witness :
    1 ∈ (solve_profile_mixture_single false nnls0 [[(100 : ℚ), 10]] [[0]] 1).innerIters
    ∧ 1 ≤ 200 :=
  ⟨by decide,
    (claim_C4 [[(100 : ℚ), 10]] [[0]] 1 nnls0 false).2.1 1 (by decide)⟩

/-! ### Claim C6: homozygote-only inputs -/

theorem fillAStep_hom (nnlsFn : List (List ℚ) → List ℚ → List ℚ)
    (S : List (List ℚ)) (G : List (List ℕ)) (P A : Mat) (i : ℕ)
    (h1 : (gtOf G i).length = 1) (j k : ℕ) :
    fillAStep nnlsFn S G P A i j k =
      A j k + if j = k ∧ gtOf G i = [j] then 1 else 0 := by
  obtain ⟨j0, hg⟩ := List.length_eq_one.mp h1
  unfold fillAStep
  rw [hg]
  show (if j = [j0].headD 0 ∧ k = [j0].headD 0 then A j k + 1 else A j k) =
    A j k + if j = k ∧ [j0] = [j] then 1 else 0
  by_cases hj : j = j0
  · by_cases hk : k = j0
    · rw [if_pos ⟨hj, hk⟩, if_pos ⟨hj.trans hk.symm, by rw [hj]⟩]
    · rw [if_neg (fun hh => hk hh.2),
        if_neg (fun hh => hk (hh.1.symm.trans hj)), add_zero]
  · rw [if_neg (fun hh => hj hh.1),
      if_neg (fun hh => hj ((List.cons_eq_cons.mp hh.2).1.symm)), add_zero]

theorem fillA_hom_fold (nnlsFn : List (List ℚ) → List ℚ → List ℚ)
    (S : List (List ℚ)) (G : List (List ℕ)) (P : Mat) :
    ∀ (L : List ℕ) (A : Mat), (∀ i ∈ L, (gtOf G i).length = 1) → ∀ j k,
      (L.foldl (fillAStep nnlsFn S G P) A) j k =
        A j k + if j = k then
          (((L.filter fun i => decide (gtOf G i = [j])).length : ℕ) : ℚ) else 0 := by
  intro L
  induction L with
  | nil =>
    intro A _ j k
    simp
  | cons i L ih =>
    intro A hhom j k
    rw [List.foldl_cons,
      ih _ (fun i' hi' => hhom i' (List.mem_cons_of_mem i hi')) j k,
      fillAStep_hom nnlsFn S G P A i (hhom i (List.mem_cons_self i L)) j k,
      List.filter_cons]
    by_cases hjk : j = k
    · subst hjk
      by_cases hj : gtOf G i = [j]
      · simp [hj]
        ring
      · simp [hj]
    · by_cases hj : gtOf G i = [j]
      · simp [hj, hjk]
      · simp [hj, hjk]

/-- Claim C6: when every sample's genotype has length 1, the balance matrix
`A` is diagonal with `A[j,j]` the number of samples homozygous for `j`; and
on the concrete homozygote-only input `[100,10], [100,6], [100,14]` (all
carrying allele 0) the converged profile satisfies `P[0,1] = 10`, the mean
of the secondary observations. -/
theorem claim_C6 :
    (∀ (S : List (List ℚ)) (G : List (List ℕ)) (P : Mat)
      (nnlsFn : List (List ℚ) → List ℚ → List ℚ),
      (∀ i, i < S.length → (gtOf G i).length = 1) → ∀ j k,
        fillA nnlsFn S G P j k =
          if j = k then
            ((((List.range S.length).filter
              fun i => decide (gtOf G i = [j])).length : ℕ) : ℚ)
          else 0)
    ∧ (solve_profile_mixture_single false nnls0
        [[(100 : ℚ), 10], [100, 6], [100, 14]] [[0], [0], [0]] 1).P 0 1 = 10 := by
  constructor
  · intro S G P nnlsFn hhom j k
    unfold fillA
    rw [fillA_hom_fold nnlsFn S G P (List.range S.length) (fun _ _ => 0)
      (fun i hi => hhom i (List.mem_range.mp hi)) j k]
    exact zero_add _
  · decide

/-- Witness for C6: the diagonal formula applied to the concrete
homozygote-only input gives the homozygote count at `A[0,0]`. -/
theorem claim_C6_witness :
    (∀ i, i < 3 → (gtOf [[0], [0], [0]] i).length = 1) ∧
    fillA nnls0 [[(100 : ℚ), 10], [100, 6], [100, 14]] [[0], [0], [0]]
      (initP 1 2) 0 0 =
      if 0 = 0 then
        ((((List.range 3).filter
          fun i => decide (gtOf [[0], [0], [0]] i = [0])).length : ℕ) : ℚ)
      else 0 :=
  ⟨by decide,
    claim_C6.1 [[(100 : ℚ), 10], [100, 6], [100, 14]] [[0], [0], [0]]
      (initP 1 2) nnls0 (by decide) 0 0⟩

/-! ### Claim C3: the degenerate branch `E[p, p] = 0` -/

theorem fillAStep_col_zero (nnlsFn : List (List ℚ) → List ℚ → List ℚ)
    (S : List (List ℚ)) (G : List (List ℕ)) (P : Mat) (p i : ℕ)
    (hp : p ∉ gtOf G i) (A : Mat) (hA : ∀ r, A r p = 0) :
    ∀ r, fillAStep nnlsFn S G P A i r p = 0 := by
  intro r
  unfold fillAStep
  split
  next hlen =>
    show (if r = (gtOf G i).headD 0 ∧ p = (gtOf G i).headD 0 then A r p + 1
      else A r p) = 0
    rw [if_neg, hA r]
    intro hh
    obtain ⟨j0, hg⟩ := List.length_eq_one.mp hlen
    rw [hg] at hh hp
    exact hp (hh.2 ▸ List.mem_singleton.mpr rfl)
  next hlen =>
    show A r p + _ = 0
    rw [hA r, zero_add]
    refine sumR_eq_zero fun j hj => sumR_eq_zero fun k hk => ?_
    rw [if_neg]
    intro hh
    have hmem : (gtOf G i).getD k 0 ∈ gtOf G i := by
      rw [List.getD_eq_getElem _ _ hk]
      exact List.getElem_mem hk
    exact hp (hh.2 ▸ hmem)

theorem fillA_col_zero (nnlsFn : List (List ℚ) → List ℚ → List ℚ)
    (S : List (List ℚ)) (G : List (List ℕ)) (P : Mat) (p : ℕ)
    (hp : ∀ i, i < S.length → p ∉ gtOf G i) :
    ∀ r, fillA nnlsFn S G P r p = 0 := by
  unfold fillA
  have main : ∀ (L : List ℕ), (∀ i ∈ L, p ∉ gtOf G i) → ∀ (A : Mat),
      (∀ r, A r p = 0) → ∀ r, (L.foldl (fillAStep nnlsFn S G P) A) r p = 0 := by
    intro L
    induction L with
    | nil => intro _ A hA r; exact hA r
    | cons i L ih =>
      intro hmem A hA r
      rw [List.foldl_cons]
      exact ih (fun i' hi' => hmem i' (List.mem_cons_of_mem i hi')) _
        (fillAStep_col_zero nnlsFn S G P p i (hmem i (List.mem_cons_self i L)) A hA) r
  exact main (List.range S.length)
    (fun i hi => hp i (List.mem_range.mp hi)) _ (fun _ => rfl)

theorem updateRowP_row_keep (E F : Mat) (n : ℕ) (report : Bool) (v : ℕ)
    (PL : Mat × List Note) (p q : ℕ) (hE : E p p = 0)
    (hrow : ∀ k, PL.1 p k = if k = p then 100 else 0) :
    ∀ k, (updateRowP E F n report v PL q).1 p k = if k = p then 100 else 0 := by
  intro k
  unfold updateRowP
  by_cases hq : q = p
  · rw [if_pos (show E q q = 0 by rw [hq]; exact hE)]
    show (if p = q ∧ k < n ∧ k ≠ q then 0 else PL.1 p k) = _
    by_cases hk : k = p
    · rw [if_neg (fun hh => hh.2.2 (hk.trans hq.symm)), hrow k]
    · rw [hrow k, if_neg hk]
      split
      · rfl
      · rfl
  · split
    · show (if p = q ∧ k < n ∧ k ≠ q then 0 else PL.1 p k) = _
      rw [if_neg (fun hh => hq hh.1.symm), hrow k]
    · show (if p = q then _ else PL.1 p k) = _
      rw [if_neg (fun hh => hq hh.symm), hrow k]

theorem foldl_updateRowP_row_keep (E F : Mat) (n : ℕ) (report : Bool) (v : ℕ)
    (p : ℕ) (hE : E p p = 0) :
    ∀ (L : List ℕ) (PL : Mat × List Note),
      (∀ k, PL.1 p k = if k = p then 100 else 0) →
      ∀ k, ((L.foldl (updateRowP E F n report v) PL)).1 p k =
        if k = p then 100 else 0 := by
  intro L
  induction L with
  | nil => intro PL h k; exact h k
  | cons q L ih =>
    intro PL h k
    rw [List.foldl_cons]
    exact ih _ (updateRowP_row_keep E F n report v PL p q hE h) k

theorem innerGoP_row_keep (A C E F : Mat) (n m : ℕ) (report : Bool) (v : ℕ)
    (p : ℕ) (hE : E p p = 0) :
    ∀ (fuel : ℕ) (prev : ℚ) (P : Mat),
      (∀ k, P p k = if k = p then 100 else 0) →
      ∀ k, (innerGoP A C E F n m report v fuel prev P).1 p k =
        if k = p then 100 else 0 := by
  intro fuel
  induction fuel with
  | zero => intro prev P h k; exact h k
  | succ fuel ih =>
    intro prev P h k
    simp only [innerGoP]
    split
    · exact foldl_updateRowP_row_keep E F n report v p hE (List.range n) (P, []) h k
    · exact ih _ _
        (foldl_updateRowP_row_keep E F n report v p hE (List.range n) (P, []) h) k

theorem outerGoP_row_keep (nnlsFn : List (List ℚ) → List ℚ → List ℚ)
    (S : List (List ℚ)) (G : List (List ℕ)) (n m : ℕ) (report : Bool) (C : Mat)
    (p : ℕ) (hp : ∀ i, i < S.length → p ∉ gtOf G i) :
    ∀ (fuel : ℕ) (prev : ℚ) (v : ℕ) (P : Mat),
      (∀ k, P p k = if k = p then 100 else 0) →
      ∀ k, (outerGoP nnlsFn S G n m report C fuel prev v P).P p k =
        if k = p then 100 else 0 := by
  intro fuel
  induction fuel with
  | zero => intro prev v P h k; exact h k
  | succ fuel ih =>
    intro prev v P h k
    have hE : (fun a b => sumR n fun r =>
        fillA nnlsFn S G P r a * fillA nnlsFn S G P r b : Mat) p p = 0 :=
      sumR_eq_zero fun r _ => by rw [fillA_col_zero nnlsFn S G P p hp r, zero_mul]
    simp only [outerGoP]
    split
    · exact innerGoP_row_keep _ C _ _ n m report v p hE 200 floatMax P h k
    · exact ih _ _ _ (innerGoP_row_keep _ C _ _ n m report v p hE 200 floatMax P h) k

theorem foldl_updateRowP_note_mono (E F : Mat) (n : ℕ) (report : Bool) (v : ℕ)
    (x : Note) :
    ∀ (L : List ℕ) (PL : Mat × List Note), x ∈ PL.2 →
      x ∈ ((L.foldl (updateRowP E F n report v) PL)).2 := by
  intro L
  induction L with
  | nil => intro PL h; exact h
  | cons q L ih =>
    intro PL h
    rw [List.foldl_cons]
    refine ih _ ?_
    unfold updateRowP
    split
    · exact List.mem_append_left _ h
    · exact h

theorem foldl_updateRowP_note_in (E F : Mat) (n : ℕ) (v : ℕ) (p : ℕ)
    (hE : E p p = 0) :
    ∀ (L : List ℕ) (PL : Mat × List Note), p ∈ L →
      Note.noSamples v p ∈ ((L.foldl (updateRowP E F n true v) PL)).2 := by
  intro L
  induction L with
  | nil => intro PL h; exact absurd h (List.not_mem_nil p)
  | cons q L ih =>
    intro PL hmem
    rw [List.foldl_cons]
    by_cases hq : q = p
    · refine foldl_updateRowP_note_mono E F n true v _ L _ ?_
      unfold updateRowP
      rw [if_pos (show E q q = 0 by rw [hq]; exact hE)]
      refine List.mem_append_right _ ?_
      rw [hq]
      exact List.mem_singleton.mpr rfl
    · rcases List.mem_cons.mp hmem with h | h
      · exact absurd h.symm hq
      · exact ih _ h

theorem sweepP_note (E F : Mat) (n : ℕ) (v : ℕ) (p : ℕ) (P : Mat)
    (hpn : p < n) (hE : E p p = 0) :
    Note.noSamples v p ∈ (sweepP E F n true v P).2 :=
  foldl_updateRowP_note_in E F n v p hE (List.range n) (P, [])
    (List.mem_range.mpr hpn)

theorem innerGoP_note (A C E F : Mat) (n m : ℕ) (v : ℕ) (p : ℕ)
    (fuel : ℕ) (prev : ℚ) (P : Mat) (hpn : p < n) (hE : E p p = 0) :
    Note.noSamples v p ∈ (innerGoP A C E F n m true v (fuel + 1) prev P).2.2 := by
  simp only [innerGoP]
  split
  · exact sweepP_note E F n v p P hpn hE
  · exact List.mem_append_left _ (sweepP_note E F n v p P hpn hE)

theorem outerGoP_note (nnlsFn : List (List ℚ) → List ℚ → List ℚ)
    (S : List (List ℚ)) (G : List (List ℕ)) (n m : ℕ) (C : Mat) (p : ℕ)
    (hpn : p < n) (hp : ∀ i, i < S.length → p ∉ gtOf G i)
    (fuel : ℕ) (prev : ℚ) (v : ℕ) (P : Mat) :
    Note.noSamples v p ∈ (outerGoP nnlsFn S G n m true C (fuel + 1) prev v P).log := by
  have hE : (fun a b => sumR n fun r =>
      fillA nnlsFn S G P r a * fillA nnlsFn S G P r b : Mat) p p = 0 :=
    sumR_eq_zero fun r _ => by rw [fillA_col_zero nnlsFn S G P p hp r, zero_mul]
  simp only [outerGoP]
  split
  · exact List.mem_append_left _ (innerGoP_note _ C _ _ n m v p 199 floatMax P hpn hE)
  · exact List.mem_append_left _
      (List.mem_append_left _ (innerGoP_note _ C _ _ n m v p 199 floatMax P hpn hE))

/-- Counterexample to C3: on an input declaring true allele 1 with zero
accumulated evidence (one sample, homozygous for allele 0, n = 2), the
solver records the anomaly but does NOT zero the entire profile row 1 —
`P[1, 1]` stays at its initial reference value 100, because the degenerate
branch executes `P[p, nn] = 0`, which only clears the other true-allele
columns of row `p`. -/
theorem claim_C3_counterexample :
    buildC [[(100 : ℚ), 50]] [[0]] 1 0 = 0 ∧
    buildC [[(100 : ℚ), 50]] [[0]] 1 1 = 0 ∧
    Note.noSamples 0 1 ∈
      (solve_profile_mixture_single true nnls0 [[(100 : ℚ), 50]] [[0]] 2).log ∧
    ¬ (solve_profile_mixture_single true nnls0 [[(100 : ℚ), 50]] [[0]] 2).P 1 1 = 0 := by
  refine ⟨by decide, by decide, by decide, by decide⟩

/-- Claim C3 as amended: whenever `(AᵀA)[p, p]` is zero (in particular when
true allele `p` appears in no sample's genotype), the solver zeroes the
entries of row `p` at the other true-allele columns, leaves `P[p, p] = 100`
and the trailing columns of row `p` at their initial zeros, records the
anomaly to the diagnostic sink, and continues without dividing by zero: the
returned row `p` is 100 at column `p` and 0 elsewhere. -/
theorem claim_C3_amended (S : List (List ℚ)) (G : List (List ℕ)) (n : ℕ)
    (nnlsFn : List (List ℚ) → List ℚ → List ℚ) (p : ℕ)
    (hpn : p < n) (hnm : n ≤ (S.headD []).length)
    (hp : ∀ i, i < S.length → p ∉ gtOf G i) :
    (∀ (E F : Mat) (v : ℕ) (PL : Mat × List Note), E p p = 0 →
      (updateRowP E F n true v PL p).1 =
        fun r k => if r = p ∧ k < n ∧ k ≠ p then 0 else PL.1 r k)
    ∧ (∀ k, (solve_profile_mixture_single true nnlsFn S G n).P p k =
        if k = p then 100 else 0)
    ∧ Note.noSamples 0 p ∈ (solve_profile_mixture_single true nnlsFn S G n).log := by
  refine ⟨?_, ?_, ?_⟩
  · intro E F v PL hE
    unfold updateRowP
    rw [if_pos hE]
  · intro k
    unfold solve_profile_mixture_single
    refine outerGoP_row_keep nnlsFn S G n _ true _ p hp 200 floatMax 0 _ ?_ k
    intro k'
    show (if p = k' ∧ p < n ∧ p < (S.headD []).length then (100 : ℚ) else 0) = _
    by_cases hk : k' = p
    · rw [if_pos ⟨hk.symm, hpn, lt_of_lt_of_le hpn hnm⟩, if_pos hk]
    · rw [if_neg (fun hh => hk hh.1.symm), if_neg hk]
  · unfold solve_profile_mixture_single
    exact List.mem_append_right _
      (outerGoP_note nnlsFn S G n _ _ p hpn hp 199 floatMax 0 _)

/-- Witness for the amended C3 on the concrete degenerate input. -/
theorem claim_C3_witness :
    (1 < 2 ∧ 2 ≤ ([[(100 : ℚ), 50]].headD []).length ∧
      (∀ i, i < 1 → (1 : ℕ) ∉ gtOf [[0]] i)) ∧
    (solve_profile_mixture_single true nnls0 [[(100 : ℚ), 50]] [[0]] 2).P 1 0 =
      (if (0 : ℕ) = 1 then (100 : ℚ) else 0) :=
  ⟨⟨by decide, by decide, by decide⟩,
    (claim_C3_amended [[(100 : ℚ), 50]] [[0]] 2 nnls0 1 (by decide) (by decide)
      (by decide)).2.1 0⟩

/-! ### Claim C9: rounding of final values -/

theorem round3_threeDecimals (q : ℚ) : threeDecimals (round3 q) := by
  unfold threeDecimals round3
  rw [div_mul_cancel₀]
  · exact Rat.den_intCast _
  · norm_num

/-- Counterexample to C9: the variance matrix returned by
`solve_profile_mixture_single(..., variance=True)` is handed to the caller
without any rounding — on the concrete homozygote input its entry `V[0, 1]`
is `32/3`, which does not have 3 decimal digits (nothing in the code rounds
variance values; only `generate_profiles` rounds, and only profiles). -/
theorem claim_C9_counterexample :
    (solve_profile_mixture_single_variance false nnls0
      [[(100 : ℚ), 10], [100, 6], [100, 14]] [[0], [0], [0]] 1).V 0 1 = 32 / 3 ∧
    ¬ threeDecimals ((solve_profile_mixture_single_variance false nnls0
      [[(100 : ℚ), 10], [100, 6], [100, 14]] [[0], [0], [0]] 1).V 0 1) :=
  ⟨by decide, by decide⟩

/-- Claim C9 as amended: every final profile value is rounded to 3 decimal
digits by `generate_profiles` before serialization (and equals the rounding
of the corresponding solver output); variance values, which
`generate_profiles` never requests, are returned by the solver unrounded. -/
theorem claim_C9_amended (nnlsFn : List (List ℚ) → List ℚ → List ℚ)
    (S : List (List ℚ)) (G : List (List ℕ)) (n : ℕ) :
    (∀ row ∈ generate_profiles_single nnlsFn S G n, ∀ x ∈ row, threeDecimals x)
    ∧ ∀ i k, i < n → k < (S.headD []).length →
        ((generate_profiles_single nnlsFn S G n).getD i []).getD k 0 =
          round3 ((solve_profile_mixture_single false nnlsFn S G n).P i k) := by
  constructor
  · intro row hrow x hx
    unfold generate_profiles_single at hrow
    obtain ⟨i, _, rfl⟩ := List.mem_map.mp hrow
    obtain ⟨k, _, rfl⟩ := List.mem_map.mp hx
    exact round3_threeDecimals _
  · intro i k hi hk
    show ((((List.range n).map fun i =>
        ((List.range ((S.headD []).length)).map fun k =>
          round3 ((solve_profile_mixture_single false nnlsFn S G n).P i k))).getD
        i []).getD k 0) = _
    rw [List.getD_eq_getElem ((List.range n).map _) _ (by simpa using hi),
      List.getElem_map, List.getElem_range,
      List.getD_eq_getElem ((List.range _).map _) _ (by simpa using hk),
      List.getElem_map, List.getElem_range]

/-- Witness for the amended C9 on a concrete run. -/
theorem claim_C9_witness :
    (0 < 1 ∧ 1 < ([[(100 : ℚ), 10]].headD []).length) ∧
    ((generate_profiles_single nnls0 [[(100 : ℚ), 10]] [[0]] 1).getD 0 []).getD 1 0 =
      round3 ((solve_profile_mixture_single false nnls0 [[(100 : ℚ), 10]] [[0]] 1).P 0 1) :=
  ⟨⟨by decide, by decide⟩,
    (claim_C9_amended nnls0 [[(100 : ℚ), 10]] [[0]] 1).2 0 1 (by decide) (by decide)⟩

/-! ### Claim C5: the background-significance filter -/

theorem assocHas_iff (c : List (ℕ × List ℕ)) (k : ℕ) :
    assocHas c k = true ↔ k ∈ c.map Prod.fst := by
  unfold assocHas
  rw [List.any_eq_true]
  constructor
  · rintro ⟨e, he, hk⟩
    exact List.mem_map.mpr ⟨e, he, beq_iff_eq.mp hk⟩
  · intro h
    obtain ⟨e, he, hfst⟩ := List.mem_map.mp h
    exact ⟨e, he, beq_iff_eq.mpr hfst⟩

/-- Counterexample to C5: in `c5data`, both samples carry true-allele
index 0 but only one of them passed allele 0's own detection threshold
(`counts[0][0] = 1`), so the filter threshold is computed from 1, not from
the 2 carrying samples.  The noise column 1 was detected in 1 of the 2
carrying samples: the claim's criterion `1 >= 80% * 2` fails, yet the code
keeps the column. -/
theorem claim_C5_counterexample :
    c5data.genotypes = [[0], [0]] ∧
    (c5data.genotypes.filter fun g => decide (0 ∈ g)).length = 2 ∧
    c5data.alleleCounts = [(0, [1, 1])] ∧
    ¬ ((1 : ℚ) ≥ 80 * 2 / 100) ∧
    1 ∈ ppOrder 80 c5data ∧
    (preprocess_data 80 c5data).alleles = [7, 8] :=
  ⟨by decide, by decide, by decide, by decide, by decide, by decide⟩

/-- Claim C5 as amended: a non-true-allele column `k` survives
`preprocess_data` iff, for at least one true allele `j`, the recorded
recurrence `counts[j][k]` reaches `min_sample_pct%` of `counts[j][j]` — the
number of samples carrying `j` in which allele `j` itself passed the
detection threshold (rather than the raw number of samples carrying `j`).
In particular, with all carriers detecting their own allele, a noise variant
seen in 1 of 10 carriers is dropped under an 80% threshold and one seen in
9 of 10 is retained. -/
theorem claim_C5_amended :
    (∀ (pct : ℚ) (d : MarkerData) (k : ℕ),
      k < d.alleles.length → assocHas d.alleleCounts k = false →
      (k ∈ ppOrder pct d ↔
        ∃ e ∈ d.alleleCounts,
          ((e.2.getD k 0 : ℕ) : ℚ) ≥ pct * ((e.2.getD e.1 0 : ℕ) : ℚ) / 100))
    ∧ c5dropData.alleleCounts = [(0, [10, 1])] ∧ 1 ∉ ppOrder 80 c5dropData
    ∧ c5keepData.alleleCounts = [(0, [10, 9])] ∧ 1 ∈ ppOrder 80 c5keepData := by
  refine ⟨?_, by decide, by decide, by decide, by decide⟩
  intro pct d k hk hhas
  unfold ppOrder
  rw [List.mem_append]
  constructor
  · rintro (h | h)
    · exfalso
      unfold sortedKeys at h
      have := (List.mem_filter.mp h).2
      rw [hhas] at this
      exact Bool.false_ne_true this
    · have h2 := (List.mem_filter.mp h).2
      rw [Bool.and_eq_true] at h2
      have := h2.2
      unfold keepCol at this
      obtain ⟨e, he, hdec⟩ := List.any_eq_true.mp this
      exact ⟨e, he, of_decide_eq_true hdec⟩
  · rintro ⟨e, he, hge⟩
    right
    rw [List.mem_filter]
    refine ⟨List.mem_range.mpr hk, ?_⟩
    rw [Bool.and_eq_true]
    constructor
    · rw [hhas]
      rfl
    · unfold keepCol
      exact List.any_eq_true.mpr ⟨e, he, decide_eq_true hge⟩

/-- Witness for the amended C5 on the 9-of-10 concrete input. -/
theorem claim_C5_witness :
    (1 < c5keepData.alleles.length ∧ assocHas c5keepData.alleleCounts 1 = false) ∧
    1 ∈ ppOrder 80 c5keepData :=
  ⟨⟨by decide, by decide⟩,
    (claim_C5_amended.1 80 c5keepData 1 (by decide) (by decide)).mpr (by decide)⟩

/-! ### Claim C8: catalogue reordering and genotype remapping -/

theorem not_mem_of_assocHas_false {c : List (ℕ × List ℕ)} {k : ℕ}
    (h : assocHas c k = false) : k ∉ c.map Prod.fst := by
  intro hm
  rw [(assocHas_iff c k).mpr hm] at h
  exact Bool.noConfusion h

theorem modifyLast_mem {f : α → α} :
    ∀ (l : List α) (x : α), x ∈ modifyLast f l → x ∈ l ∨ ∃ y ∈ l, x = f y := by
  intro l
  induction l with
  | nil => intro x hx; exact absurd hx (List.not_mem_nil x)
  | cons a l ih =>
    intro x hx
    cases l with
    | nil =>
      rcases List.mem_singleton.mp hx with h
      exact Or.inr ⟨a, List.mem_singleton.mpr rfl, h⟩
    | cons b l =>
      rcases List.mem_cons.mp hx with h | h
      · exact Or.inl (List.mem_cons.mpr (Or.inl h))
      · rcases ih x h with h' | ⟨y, hy, hxy⟩
        · exact Or.inl (List.mem_cons.mpr (Or.inr h'))
        · exact Or.inr ⟨y, List.mem_cons.mpr (Or.inr hy), hxy⟩

theorem admitAllele_spec (d : MarkerData) (a : ℕ) :
    dKeys (admitAllele d a).2 = dKeys d ∧
    (admitAllele d a).2.genotypes = d.genotypes ∧
    (admitAllele d a).2.trueAlleles = d.trueAlleles ∧
    d.alleles.length ≤ (admitAllele d a).2.alleles.length ∧
    (admitAllele d a).1 < (admitAllele d a).2.alleles.length := by
  unfold admitAllele
  cases hf : d.alleles.findIdx? fun b => b == a with
  | some i =>
    refine ⟨rfl, rfl, rfl, le_refl _, ?_⟩
    exact (List.findIdx?_eq_some_iff_findIdx_eq.mp hf).1
  | none =>
    refine ⟨?_, rfl, rfl, ?_, ?_⟩
    · show (d.alleleCounts.map _).map Prod.fst = _
      rw [List.map_map]
      rfl
    · show d.alleles.length ≤ (d.alleles ++ [a]).length
      simp
    · show d.alleles.length < (d.alleles ++ [a]).length
      simp

theorem admitAllele_inv (d : MarkerData) (a : ℕ) (h : AggInv d) :
    AggInv (admitAllele d a).2 := by
  obtain ⟨hk, hg, ht, hle, _⟩ := admitAllele_spec d a
  exact ⟨hk ▸ h.nodup,
    fun k hkm => lt_of_lt_of_le (h.bounded k (hk ▸ hkm)) hle,
    by rw [ht, hk]; exact h.count,
    fun g hgm y hy => hk ▸ h.gtKeys g (hg ▸ hgm) y hy⟩

theorem ensureCounter_alleles (d : MarkerData) (i : ℕ) :
    (ensureCounter d i).alleles = d.alleles ∧
    (ensureCounter d i).genotypes = d.genotypes := by
  unfold ensureCounter
  split
  · exact ⟨rfl, rfl⟩
  · exact ⟨rfl, rfl⟩

theorem ensureCounter_mem (d : MarkerData) (i : ℕ) :
    i ∈ dKeys (ensureCounter d i) := by
  unfold ensureCounter
  split
  next hhas => exact (assocHas_iff _ _).mp hhas
  next hhas =>
    show i ∈ (d.alleleCounts ++ [(i, _)]).map Prod.fst
    rw [List.map_append]
    exact List.mem_append_right _ (List.mem_singleton.mpr rfl)

theorem ensureCounter_inv (d : MarkerData) (i : ℕ) (h : AggInv d)
    (hi : i < d.alleles.length) : AggInv (ensureCounter d i) := by
  unfold ensureCounter
  split
  next hhas => exact h
  next hhas =>
    have hkeys : dKeys
        { d with alleleCounts := d.alleleCounts ++ [(i, List.replicate d.alleles.length 0)],
                 trueAlleles := d.trueAlleles + 1 } = dKeys d ++ [i] := by
      show (d.alleleCounts ++ [(i, _)]).map Prod.fst = _
      rw [List.map_append]
      rfl
    have hnotin : i ∉ dKeys d :=
      not_mem_of_assocHas_false (Bool.not_eq_true _ ▸ hhas)
    refine ⟨?_, ?_, ?_, ?_⟩
    · rw [hkeys, List.nodup_append]
      exact ⟨h.nodup, List.nodup_singleton i,
        fun x hx hx1 => hnotin (List.mem_singleton.mp hx1 ▸ hx)⟩
    · intro k hkm
      rw [hkeys] at hkm
      rcases List.mem_append.mp hkm with hm | hm
      · exact h.bounded k hm
      · rw [List.mem_singleton.mp hm]
        exact hi
    · show d.trueAlleles + 1 = _
      rw [hkeys, List.length_append, h.count]
      rfl
    · intro g hgm y hy
      rw [hkeys]
      exact List.mem_append_left _ (h.gtKeys g hgm y hy)

theorem phase1Step_inv (d : MarkerData) (a : ℕ) (h : AggInv d) :
    AggInv (phase1Step d a).2 := by
  unfold phase1Step
  obtain ⟨hk, hg, ht, hle, hlt⟩ := admitAllele_spec d a
  have h1 : AggInv (admitAllele d a).2 := admitAllele_inv d a h
  have hal := ensureCounter_alleles (admitAllele d a).2 (admitAllele d a).1
  have h2 : AggInv (ensureCounter (admitAllele d a).2 (admitAllele d a).1) :=
    ensureCounter_inv _ _ h1 hlt
  have hmem := ensureCounter_mem (admitAllele d a).2 (admitAllele d a).1
  refine ⟨h2.nodup, fun k hkm => h2.bounded k hkm, h2.count, ?_⟩
  intro g hgm y hy
  show y ∈ dKeys (ensureCounter (admitAllele d a).2 (admitAllele d a).1)
  have hgm' : g ∈ modifyLast (· ++ [(admitAllele d a).1])
      (ensureCounter (admitAllele d a).2 (admitAllele d a).1).genotypes := hgm
  rcases modifyLast_mem _ g hgm' with hold | ⟨g0, hg0, rfl⟩
  · exact h2.gtKeys g hold y hy
  · rcases List.mem_append.mp hy with hyl | hyr
    · exact h2.gtKeys g0 hg0 y hyl
    · rw [List.mem_singleton.mp hyr]
      exact hmem

theorem phase1_inv (minPct : ℚ) (rd : List (ℕ × ℤ × ℤ)) :
    ∀ (ts : List ℕ) (d : MarkerData) (thr : List (ℕ × ℤ × ℤ))
      (d' : MarkerData) (thr' : List (ℕ × ℤ × ℤ)), AggInv d →
      phase1 minPct rd ts d thr = .ok (d', thr') → AggInv d' := by
  intro ts
  induction ts with
  | nil =>
    intro d thr d' thr' h heq
    rw [phase1] at heq
    cases heq
    exact h
  | cons a ts ih =>
    intro d thr d' thr' h heq
    rw [phase1] at heq
    split at heq
    · exact Except.noConfusion heq
    · split at heq
      · exact Except.noConfusion heq
      · exact ih _ _ _ _ (phase1Step_inv d a h) heq

theorem assocUpdate_keys (c : List (ℕ × List ℕ)) (k : ℕ) (f : List ℕ → List ℕ) :
    (assocUpdate c k f).map Prod.fst = c.map Prod.fst := by
  unfold assocUpdate
  rw [List.map_map]
  apply List.map_congr_left
  intro e _
  show (if e.1 == k then (e.1, f e.2) else e).1 = e.1
  split
  · rfl
  · rfl

theorem phase2_bump_fold_inv (minAbs : ℤ) (f r : ℤ) (i : ℕ) :
    ∀ (thr : List (ℕ × ℤ × ℤ)) (dd : MarkerData), AggInv dd →
      AggInv (thr.foldl
        (fun dd e =>
          if f ≥ max minAbs e.2.1 ∨ r ≥ max minAbs e.2.2 then
            { dd with alleleCounts := assocUpdate dd.alleleCounts e.1 (bumpAt · i) }
          else dd)
        dd) := by
  intro thr
  induction thr with
  | nil => intro dd h; exact h
  | cons e thr ih =>
    intro dd h
    rw [List.foldl_cons]
    apply ih
    split
    · have hkeys : dKeys { dd with
          alleleCounts := assocUpdate dd.alleleCounts e.1 (bumpAt · i) } =
          dKeys dd := by
        unfold dKeys
        exact assocUpdate_keys dd.alleleCounts e.1 (fun x => bumpAt x i)
      exact ⟨hkeys ▸ h.nodup, fun k hkm => h.bounded k (hkeys ▸ hkm),
        by show dd.trueAlleles = _; rw [hkeys]; exact h.count,
        fun g hgm y hy => hkeys ▸ h.gtKeys g hgm y hy⟩
    · exact h

theorem phase2Step_inv (minAbs : ℤ) (thr : List (ℕ × ℤ × ℤ)) (d : MarkerData)
    (a : ℕ) (f r : ℤ) (h : AggInv d) :
    AggInv (phase2Step minAbs thr d a f r) := by
  have h1 : AggInv (admitAllele d a).2 := admitAllele_inv d a h
  have h2 : AggInv
      { (admitAllele d a).2 with
         profilesF := modifyLast (fun row => row.set (admitAllele d a).1 f)
           (admitAllele d a).2.profilesF,
         profilesR := modifyLast (fun row => row.set (admitAllele d a).1 r)
           (admitAllele d a).2.profilesR } :=
    ⟨h1.nodup, h1.bounded, h1.count, h1.gtKeys⟩
  exact phase2_bump_fold_inv minAbs f r (admitAllele d a).1 thr _ h2

theorem phase2_inv (minAbs : ℤ) (thr : List (ℕ × ℤ × ℤ)) :
    ∀ (rd : List (ℕ × ℤ × ℤ)) (d : MarkerData), AggInv d →
      AggInv (phase2 minAbs thr rd d) := by
  intro rd
  induction rd with
  | nil => intro d h; exact h
  | cons e rd ih =>
    intro d h
    obtain ⟨a, f, r⟩ := e
    rw [phase2]
    exact ih _ (phase2Step_inv minAbs thr d a f r h)

theorem add_sample_data_inv (minPct : ℚ) (minAbs : ℤ) (s : SampleIn)
    (d d' : MarkerData) (h : AggInv d)
    (heq : add_sample_data minPct minAbs s d = .ok d') : AggInv d' := by
  unfold add_sample_data at heq
  split at heq
  · cases heq
    exact h
  · have h0 : AggInv
        { d with profilesF := d.profilesF ++ [List.replicate d.alleles.length 0],
                 profilesR := d.profilesR ++ [List.replicate d.alleles.length 0],
                 genotypes := d.genotypes ++ [[]] } := by
      refine ⟨h.nodup, h.bounded, h.count, ?_⟩
      intro g hgm y hy
      rcases List.mem_append.mp hgm with hm | hm
      · exact h.gtKeys g hm y hy
      · rw [List.mem_singleton.mp hm] at hy
        exact absurd hy (List.not_mem_nil y)
    simp only [] at heq
    split at heq
    · exact Except.noConfusion heq
    next d1 thr hphase1 =>
      cases heq
      exact phase2_inv minAbs thr s.readData d1
        (phase1_inv minPct s.readData s.trueSet _ [] d1 thr h0 hphase1)

theorem initMarkerData_inv : AggInv initMarkerData :=
  ⟨List.nodup_nil, fun k hk => absurd hk (List.not_mem_nil k), rfl,
    fun g hg => absurd hg (List.not_mem_nil g)⟩

theorem processSamples_fold_inv (minPct : ℚ) (minAbs : ℤ) :
    ∀ (samples : List SampleIn) (d0 d : MarkerData), AggInv d0 →
      samples.foldlM (fun d s => add_sample_data minPct minAbs s d) d0 = .ok d →
      AggInv d := by
  intro samples
  induction samples with
  | nil =>
    intro d0 d h heq
    cases heq
    exact h
  | cons s samples ih =>
    intro d0 d h heq
    rw [List.foldlM_cons] at heq
    cases hstep : add_sample_data minPct minAbs s d0 with
    | error e =>
      rw [hstep] at heq
      exact Except.noConfusion heq
    | ok d1 =>
      rw [hstep] at heq
      exact ih d1 d (add_sample_data_inv minPct minAbs s d0 d1 h hstep) heq

theorem processSamples_inv (minPct : ℚ) (minAbs : ℤ) (samples : List SampleIn)
    (d : MarkerData) (h : processSamples minPct minAbs samples = .ok d) :
    AggInv d :=
  processSamples_fold_inv minPct minAbs samples initMarkerData d
    initMarkerData_inv h

theorem mem_sortedKeys_of_key (d : MarkerData)
    (hb : ∀ k ∈ dKeys d, k < d.alleles.length) (y : ℕ) (hy : y ∈ dKeys d) :
    y ∈ sortedKeys d := by
  unfold sortedKeys
  rw [List.mem_filter]
  exact ⟨List.mem_range.mpr (hb y hy), (assocHas_iff _ _).mpr hy⟩

theorem sortedKeys_length (d : MarkerData) (hnd : (dKeys d).Nodup)
    (hb : ∀ k ∈ dKeys d, k < d.alleles.length) :
    (sortedKeys d).length = (dKeys d).length := by
  apply List.Perm.length_eq
  apply (List.perm_ext_iff_of_nodup
    (List.Nodup.filter _ (List.nodup_range _)) hnd).mpr
  intro x
  rw [List.mem_filter, List.mem_range, assocHas_iff]
  exact ⟨fun hh => hh.2, fun hx => ⟨hb x hx, hx⟩⟩

theorem findIdx_append_lt_of_mem {y : ℕ} (l1 l2 : List ℕ) (hy : y ∈ l1) :
    (l1 ++ l2).findIdx (· == y) < l1.length := by
  rw [List.findIdx_append]
  have hlt : l1.findIdx (· == y) < l1.length :=
    List.findIdx_lt_length_of_exists ⟨y, hy, beq_self_eq_true y⟩
  rw [if_pos hlt]
  exact hlt

/-- Counterexample to C8: in `c8data` the true alleles were established in
the order 10, 12, 11 (counter keys `[0, 2, 1]`), but `preprocess_data`
orders the first `n` catalogue entries as `[10, 11, 12]` — by ascending
catalogue index (`sorted(counts)`), not in establishment order. -/
theorem claim_C8_counterexample :
    dKeys c8data = [0, 2, 1] ∧
    (dKeys c8data).map (fun i => c8data.alleles.getD i 0) = [10, 12, 11] ∧
    c8data.trueAlleles = 3 ∧
    (preprocess_data 80 c8data).alleles = [10, 11, 12] ∧
    ¬ ((preprocess_data 80 c8data).alleles.take 3 = [10, 12, 11]) :=
  ⟨by decide, by decide, by decide, by decide, by decide⟩

/-- Claim C8 as amended: after aggregation, `preprocess_data` reorders the
catalogue as the image of `ppOrder` — the true-allele columns first, in
ascending catalogue-index order (the order in which the alleles first
entered the catalogue, whether as true alleles or as noise variants),
followed by the surviving noise columns in filter-evaluation order — and
every index in every remapped genotype refers to one of the first
`n = trueAlleles` catalogue entries. -/
theorem claim_C8_amended (minPct : ℚ) (minAbs : ℤ) (samples : List SampleIn)
    (d : MarkerData) (pct : ℚ)
    (h : processSamples minPct minAbs samples = .ok d) :
    (preprocess_data pct d).alleles =
      (ppOrder pct d).map (fun i => d.alleles.getD i 0)
    ∧ (preprocess_data pct d).alleles.take d.trueAlleles =
        (sortedKeys d).map (fun i => d.alleles.getD i 0)
    ∧ List.Pairwise (· < ·) (sortedKeys d)
    ∧ ∀ g ∈ (preprocess_data pct d).genotypes, ∀ y ∈ g, y < d.trueAlleles := by
  have hInv : AggInv d := processSamples_inv minPct minAbs samples d h
  refine ⟨rfl, ?_, ?_, ?_⟩
  · show ((ppOrder pct d).map _).take d.trueAlleles = _
    unfold ppOrder
    rw [List.map_append]
    apply List.take_left'
    rw [List.length_map, sortedKeys_length d hInv.nodup hInv.bounded, ← hInv.count]
  · exact List.Pairwise.filter _ (List.pairwise_lt_range _)
  · intro g hg y hy
    obtain ⟨g0, hg0, rfl⟩ := List.mem_map.mp hg
    obtain ⟨y0, hy0, rfl⟩ := List.mem_map.mp hy
    have hyk : y0 ∈ dKeys d := hInv.gtKeys g0 hg0 y0 hy0
    have hlt : (ppOrder pct d).findIdx (· == y0) < (sortedKeys d).length := by
      unfold ppOrder
      exact findIdx_append_lt_of_mem _ _
        (mem_sortedKeys_of_key d hInv.bounded y0 hyk)
    rw [sortedKeys_length d hInv.nodup hInv.bounded, ← hInv.count] at hlt
    exact hlt

/-- Witness for the amended C8 on the concrete input. -/
theorem claim_C8_witness :
    processSamples (1 / 2) 5 c8samples = Except.ok c8data ∧
    ∀ g ∈ (preprocess_data 80 c8data).genotypes, ∀ y ∈ g,
      y < c8data.trueAlleles :=
  ⟨by rfl,
    (claim_C8_amended (1 / 2) 5 c8samples c8data 80 (by rfl)).2.2.2⟩
